import Mathlib

/-!
Verification of the pdf-to-structured-data repository core:
the heuristic price extractor (src/lib/priceExtractor.ts) and the
JSON salvage pipeline (src/app/api/extract/route.ts), shallowly
embedded over `List Char` / `String`, with JS numbers modelled as `ℚ`.
-/

set_option maxRecDepth 4096

/-! ## Basic character and string utilities -/

/-- Left brace character, written via its code point. -/
def lbrace : Char := Char.ofNat 123

/-- Right brace character, written via its code point. -/
def rbrace : Char := Char.ofNat 125

/-- Whitespace class of JavaScript `\s` (the subset relevant to this code:
ASCII whitespace, NBSP, BOM, line/paragraph separators). -/
def isJsWsC (c : Char) : Bool :=
  c = ' ' || c = '\t' || c = '\n' || c = '\r' ||
  c = Char.ofNat 11 || c = Char.ofNat 12 || c = Char.ofNat 160 ||
  c = Char.ofNat 8232 || c = Char.ofNat 8233 || c = Char.ofNat 65279

/-- JavaScript word character (`\w` of the regexes used by the source). -/
def isWordC (c : Char) : Bool := c.isAlphanum || c = '_'

/-- Trim (JS `String.prototype.trim`) on a character list. -/
def jsTrimL (cs : List Char) : List Char :=
  ((cs.dropWhile isJsWsC).reverse.dropWhile isJsWsC).reverse

/-- Trim on `String`. -/
def jsTrim (s : String) : String := ⟨jsTrimL s.data⟩

/-- Case-insensitive character equality (ASCII folding, as in JS `i` flag
for the patterns used here). -/
def lowerEq (a b : Char) : Bool := a.toLower = b.toLower

/-- Does `pat` occur as a prefix of `cs`, case-insensitively? -/
def ciPrefix : List Char → List Char → Bool
  | [], _ => true
  | _ :: _, [] => false
  | p :: ps, c :: cs => lowerEq c p && ciPrefix ps cs

/-- Does `pat` occur as a prefix of `cs` (case-sensitive)? -/
def csPrefix (pat cs : List Char) : Bool := List.isPrefixOf pat cs

/-- Does `sub` occur anywhere in `cs` (case-sensitive)? -/
def containsSub (cs sub : List Char) : Bool :=
  match cs with
  | [] => csPrefix sub []
  | _ :: rest => csPrefix sub cs || containsSub rest sub

/-- JS `String.prototype.split(/\r?\n/)` on a character list. -/
def splitRN : List Char → List (List Char)
  | [] => [[]]
  | '\r' :: '\n' :: rest => [] :: splitRN rest
  | '\n' :: rest => [] :: splitRN rest
  | c :: rest =>
    match splitRN rest with
    | l :: ls => (c :: l) :: ls
    | [] => [[c]]

/-- JS `String.prototype.split("\n")` on a character list. -/
def splitNL : List Char → List (List Char)
  | [] => [[]]
  | '\n' :: rest => [] :: splitNL rest
  | c :: rest =>
    match splitNL rest with
    | l :: ls => (c :: l) :: ls
    | [] => [[c]]

/-- Join a list of character lists with a separator character. -/
def joinWith (sep : Char) : List (List Char) → List Char
  | [] => []
  | [l] => l
  | l :: ls => l ++ sep :: joinWith sep ls

/-- Last `n` elements (JS `Array.prototype.slice(-n)` for `n > 0`). -/
def lastN (n : Nat) (l : List α) : List α := l.drop (l.length - n)

/-- Index of the first occurrence of a character, if any. -/
def firstIdx? : List Char → Char → Option Nat
  | [], _ => none
  | c :: cs, t => if c = t then some 0 else (firstIdx? cs t).map (· + 1)

/-- Index of the last occurrence of a character, if any. -/
def lastIdx? : List Char → Char → Option Nat
  | [], _ => none
  | c :: cs, t =>
    match lastIdx? cs t with
    | some i => some (i + 1)
    | none => if c = t then some 0 else none

/-- JS `indexOf` returning `-1` when absent. -/
def jsIndexOf (cs : List Char) (c : Char) : Int :=
  match firstIdx? cs c with
  | some i => (i : Int)
  | none => -1

/-- JS `lastIndexOf` returning `-1` when absent. -/
def jsLastIndexOf (cs : List Char) (c : Char) : Int :=
  match lastIdx? cs c with
  | some i => (i : Int)
  | none => -1

/-- Slice `[i, j)` of a character list (JS `slice` with nonnegative indices). -/
def sliceL (cs : List Char) (i j : Nat) : List Char := (cs.drop i).take (j - i)

/-! ## JSON values and `JSON.parse` -/

/-- JSON values produced by `JSON.parse`: numbers are modelled as `ℚ`,
objects as ordered field lists. -/
inductive Json where
  | null : Json
  | bool (b : Bool) : Json
  | num (q : ℚ) : Json
  | str (s : String) : Json
  | arr (xs : List Json) : Json
  | obj (fs : List (String × Json)) : Json

/-- JSON whitespace accepted by `JSON.parse` (space, tab, LF, CR). -/
def isJsonWs (c : Char) : Bool := c = ' ' || c = '\t' || c = '\n' || c = '\r'

/-- Value of a hexadecimal digit. -/
def hexVal (c : Char) : Option Nat :=
  if c.isDigit then some (c.toNat - 48)
  else if 'a' ≤ c ∧ c ≤ 'f' then some (c.toNat - 87)
  else if 'A' ≤ c ∧ c ≤ 'F' then some (c.toNat - 55)
  else none

/-- Numeric value of a digit string. -/
def natVal (cs : List Char) : Nat := cs.foldl (fun n c => n * 10 + (c.toNat - 48)) 0

/-- Escape character map of JSON string literals (everything except `\u`). -/
def jsonEsc (c : Char) : Option Char :=
  if c = '"' then some '"'
  else if c = '\\' then some '\\'
  else if c = '/' then some '/'
  else if c = 'b' then some (Char.ofNat 8)
  else if c = 'f' then some (Char.ofNat 12)
  else if c = 'n' then some '\n'
  else if c = 'r' then some '\r'
  else if c = 't' then some '\t'
  else none

/-- Body of a JSON string literal (after the opening quote): returns the
decoded characters and the remainder after the closing quote. -/
def jStringChars : List Char → Option (List Char × List Char)
  | [] => none
  | c :: cs =>
    if c = '"' then some ([], cs)
    else if c = '\\' then
      match cs with
      | [] => none
      | 'u' :: h1 :: h2 :: h3 :: h4 :: rest =>
        match hexVal h1, hexVal h2, hexVal h3, hexVal h4 with
        | some a, some b, some c2, some d =>
          (jStringChars rest).map
            (fun p => (Char.ofNat (((a * 16 + b) * 16 + c2) * 16 + d) :: p.1, p.2))
        | _, _, _, _ => none
      | e :: cs2 =>
        match jsonEsc e with
        | some ch => (jStringChars cs2).map (fun p => (ch :: p.1, p.2))
        | none => none
    else if c.toNat < 32 then none
    else (jStringChars cs).map (fun p => (c :: p.1, p.2))

/-- The rational `m * 10^e` (sign already on `m`), built with `Rat.divInt`
so that it evaluates by kernel reduction. -/
def decScale (m : Int) (e : Int) : ℚ :=
  if 0 ≤ e then Rat.divInt (m * (10 : Int) ^ e.toNat) 1
  else Rat.divInt m ((10 : Int) ^ (-e).toNat)

/-- Parse a JSON number at the head of the input. -/
def jNumberParse (cs : List Char) : Option (ℚ × List Char) :=
  let (neg, cs1) := if cs.head? = some '-' then (true, cs.tail) else (false, cs)
  match cs1 with
  | [] => none
  | c :: rest =>
    if ¬ c.isDigit then none
    else
      let (intPart, afterInt) :=
        if c = '0' then ([c], rest)
        else (c :: rest.takeWhile Char.isDigit, rest.dropWhile Char.isDigit)
      let (fracPart, afterFrac) :=
        match afterInt with
        | '.' :: fs =>
          let ds := fs.takeWhile Char.isDigit
          if ds = [] then ([], afterInt) else (ds, fs.dropWhile Char.isDigit)
        | _ => ([], afterInt)
      let fracOk : Bool :=
        match afterInt with
        | '.' :: fs => ¬ (fs.takeWhile Char.isDigit = [])
        | _ => true
      if ¬ fracOk then none
      else
        let (expVal, afterExp, expOk) :=
          match afterFrac with
          | e :: es =>
            if e = 'e' ∨ e = 'E' then
              let (esign, es1) :=
                match es with
                | '+' :: t => ((1 : Int), t)
                | '-' :: t => ((-1 : Int), t)
                | _ => ((1 : Int), es)
              let ds := es1.takeWhile Char.isDigit
              if ds = [] then ((0 : Int), afterFrac, false)
              else (esign * (natVal ds : Int), es1.dropWhile Char.isDigit, true)
            else ((0 : Int), afterFrac, true)
          | [] => ((0 : Int), afterFrac, true)
        if ¬ expOk then none
        else
          let mant : Int := (natVal (intPart ++ fracPart) : Int)
          let q : ℚ := decScale (if neg then -mant else mant)
            (expVal - (fracPart.length : Int))
          some (q, afterExp)

mutual

/-- Parse a JSON value (leading whitespace allowed); fuel-indexed. -/
def jValue (fuel : Nat) (cs : List Char) : Option (Json × List Char) :=
  match fuel with
  | 0 => none
  | fuel + 1 =>
    let cs := cs.dropWhile isJsonWs
    match cs with
    | [] => none
    | c :: rest =>
      if c = lbrace then
        let cs1 := rest.dropWhile isJsonWs
        match cs1 with
        | c1 :: r1 =>
          if c1 = rbrace then some (Json.obj [], r1)
          else (jMembers fuel cs1).map (fun p => (Json.obj p.1, p.2))
        | [] => none
      else if c = '[' then
        let cs1 := rest.dropWhile isJsonWs
        match cs1 with
        | ']' :: r1 => some (Json.arr [], r1)
        | _ => (jItems fuel cs1).map (fun p => (Json.arr p.1, p.2))
      else if c = '"' then
        (jStringChars rest).map (fun p => (Json.str ⟨p.1⟩, p.2))
      else if csPrefix "true".data cs then some (Json.bool true, cs.drop 4)
      else if csPrefix "false".data cs then some (Json.bool false, cs.drop 5)
      else if csPrefix "null".data cs then some (Json.null, cs.drop 4)
      else
        (jNumberParse cs).map (fun p => (Json.num p.1, p.2))

/-- Parse the members of a JSON object (input starts at the first key). -/
def jMembers (fuel : Nat) (cs : List Char) : Option (List (String × Json) × List Char) :=
  match fuel with
  | 0 => none
  | fuel + 1 =>
    match cs with
    | '"' :: rest =>
      match jStringChars rest with
      | some (key, r1) =>
        match r1.dropWhile isJsonWs with
        | ':' :: r3 =>
          match jValue fuel r3 with
          | some (v, r4) =>
            match r4.dropWhile isJsonWs with
            | ',' :: r6 =>
              (jMembers fuel (r6.dropWhile isJsonWs)).map
                (fun p => ((⟨key⟩, v) :: p.1, p.2))
            | c2 :: r6 =>
              if c2 = rbrace then some ([(⟨key⟩, v)], r6) else none
            | [] => none
          | none => none
        | _ => none
      | none => none
    | _ => none

/-- Parse the items of a JSON array (input starts at the first item). -/
def jItems (fuel : Nat) (cs : List Char) : Option (List Json × List Char) :=
  match fuel with
  | 0 => none
  | fuel + 1 =>
    match jValue fuel cs with
    | some (v, r1) =>
      match r1.dropWhile isJsonWs with
      | ',' :: r2 =>
        (jItems fuel r2).map (fun p => (v :: p.1, p.2))
      | ']' :: r2 => some ([v], r2)
      | _ => none
    | none => none

end

/-- The `JSON.parse` model: a full text parses iff it is one JSON value
surrounded by JSON whitespace. -/
def jsonParse (s : String) : Option Json :=
  match jValue (s.data.length + 1) s.data with
  | some (v, rest) => if rest.dropWhile isJsonWs = [] then some v else none
  | none => none

/-! ## Text sanitizer of src/app/api/extract/route.ts -/

/-- Single-quote character (code point 39) as a string, used to build test inputs. -/
def sqt : String := ⟨[Char.ofNat 39]⟩

/-- Port of `escapeNewlinesInQuotedStrings`: single pass with
`inStr`/`esc` state, rewriting raw CR/LF inside double-quoted spans
to the two characters `\n`. -/
def escNlGo (inStr esc : Bool) : List Char → List Char
  | [] => []
  | c :: cs =>
    if esc then c :: escNlGo inStr false cs
    else if c = '\\' then c :: escNlGo inStr true cs
    else if c = '"' then c :: escNlGo (!inStr) false cs
    else if inStr ∧ (c = '\n' ∨ c = '\r') then '\\' :: 'n' :: escNlGo inStr false cs
    else c :: escNlGo inStr false cs

/-- The route's `escapeNewlinesInQuotedStrings` on `String`. -/
def escapeNewlinesInQuotedStrings (s : String) : String := ⟨escNlGo false false s.data⟩

/-- Code-fence stripping branch of `sanitizeJsonString` (runs only when the
trimmed text starts with three backticks): drop the opening fence with an
optional case-insensitive `json` tag and following whitespace, drop a
closing fence at the very end, then trim. -/
def fenceStripAfter (cs : List Char) : List Char :=
  let r := cs.drop 3
  let r := if ciPrefix "json".data r then r.drop 4 else r
  let r := r.dropWhile isJsWsC
  let r := if csPrefix "```".data r.reverse then r.take (r.length - 3) else r
  jsTrimL r

/-- Match of the optional `here's `/`here is ` part of the chatty lead-in
regex (case-insensitive, requires at least one following whitespace). -/
def hereOptMatch (cs : List Char) : Option (List Char) :=
  if ciPrefix "here".data cs then
    let r := cs.drop 4
    let r2 : Option (List Char) :=
      if ciPrefix (Char.ofNat 39 :: ['s']) r then some (r.drop 2)
      else if ciPrefix " is".data r then some (r.drop 3)
      else none
    match r2 with
    | some r3 =>
      if r3.takeWhile isJsWsC = [] then none else some (r3.dropWhile isJsWsC)
    | none => none
  else none

/-- Match of the optional `the ` part of the chatty lead-in regex. -/
def theOptMatch (cs : List Char) : Option (List Char) :=
  if ciPrefix "the".data cs then
    let r := cs.drop 3
    if r.takeWhile isJsWsC = [] then none else some (r.dropWhile isJsWsC)
  else none

/-- Match of the mandatory keyword and tail `(json|output|result|response)\s*:?\s*`
of the chatty lead-in regex. -/
def leadInAfterKeyword (cs : List Char) : Option (List Char) :=
  let kw : Option Nat :=
    if ciPrefix "json".data cs then some 4
    else if ciPrefix "output".data cs then some 6
    else if ciPrefix "result".data cs then some 6
    else if ciPrefix "response".data cs then some 8
    else none
  match kw with
  | some k =>
    let r1 := (cs.drop k).dropWhile isJsWsC
    let r2 := match r1 with | ':' :: t => t | _ => r1
    some (r2.dropWhile isJsWsC)
  | none => none

/-- Removal of the chatty lead-in
`^\s*(?:here(?:'s| is)\s+)?(?:the\s+)?(?:json|output|result|response)\s*:?\s*`
(one anchored replacement; the optional groups backtrack in regex order). -/
def leadInStrip (cs : List Char) : List Char :=
  let s0 := cs.dropWhile isJsWsC
  let withHere : Option (List Char) :=
    match hereOptMatch s0 with
    | some s1 =>
      (match theOptMatch s1 with
       | some s2 => leadInAfterKeyword s2
       | none => none) <|> leadInAfterKeyword s1
    | none => none
  let res := withHere <|>
    (match theOptMatch s0 with
     | some s2 => leadInAfterKeyword s2
     | none => none) <|> leadInAfterKeyword s0
  match res with
  | some r => r
  | none => cs

/-- Removal of `//` line comments (`/^\s*\/\/.*$/gm`): at each line start,
a whitespace run followed by `//` consumes the remainder of that line. -/
def lineCommentGo (fuel : Nat) (atStart : Bool) (cs : List Char) : List Char :=
  match fuel with
  | 0 => cs
  | fuel + 1 =>
    match cs with
    | [] => []
    | c :: rest =>
      if atStart then
        let r2 := cs.dropWhile isJsWsC
        if csPrefix "//".data r2 then
          lineCommentGo fuel false ((r2.drop 2).dropWhile (fun c2 => ¬ (c2 = '\n' ∨ c2 = '\r')))
        else c :: lineCommentGo fuel (c = '\n' ∨ c = '\r') rest
      else c :: lineCommentGo fuel (c = '\n' ∨ c = '\r') rest

/-- Remainder after the closest `*/`, if any. -/
def afterClose : List Char → Option (List Char)
  | '*' :: '/' :: rest => some rest
  | _ :: rest => afterClose rest
  | [] => none

/-- Removal of `/* ... */` block comments (`/\/\*[\s\S]*?\*\//g`, lazy). -/
def blockCommentGo (fuel : Nat) (cs : List Char) : List Char :=
  match fuel with
  | 0 => cs
  | fuel + 1 =>
    match cs with
    | [] => []
    | c :: rest =>
      if csPrefix "/*".data cs then
        match afterClose (cs.drop 2) with
        | some r2 => blockCommentGo fuel r2
        | none => cs
      else c :: blockCommentGo fuel rest

/-- Removal of trailing commas before a closing brace/bracket
(`/,\s*([}\]])/g` replaced by the bracket). -/
def trailingCommaGo (fuel : Nat) (cs : List Char) : List Char :=
  match fuel with
  | 0 => cs
  | fuel + 1 =>
    match cs with
    | [] => []
    | c :: rest =>
      if c = ',' then
        match rest.dropWhile isJsWsC with
        | b :: r3 =>
          if b = rbrace ∨ b = ']' then b :: trailingCommaGo fuel r3
          else c :: trailingCommaGo fuel rest
        | [] => c :: trailingCommaGo fuel rest
      else c :: trailingCommaGo fuel rest

/-- Test of the bare-items head `/^\s*items\s*:\s*\[/` (case-sensitive). -/
def itemsHeadTest (cs : List Char) : Bool :=
  let r := cs.dropWhile isJsWsC
  if csPrefix "items".data r then
    match (r.drop 5).dropWhile isJsWsC with
    | ':' :: r3 => ((r3.dropWhile isJsWsC).head? = some '[' : Bool)
    | _ => false
  else false

/-- Port of `sanitizeJsonString` on a character list, in source order:
trim, fence strip, lead-in strip, line comments, block comments, BOM,
NBSP, trailing commas, bare-items wrap, newline escaping. -/
def sanitizeL (cs : List Char) : List Char :=
  let s := jsTrimL cs
  let s := if csPrefix "```".data s then fenceStripAfter s else s
  let s := leadInStrip s
  let s := lineCommentGo (s.length + 1) true s
  let s := blockCommentGo (s.length + 1) s
  let s := match s with
    | c :: r => if c = Char.ofNat 65279 then r else s
    | [] => s
  let s := s.map (fun c => if c = Char.ofNat 160 then ' ' else c)
  let s := trailingCommaGo (s.length + 1) s
  let s := if ¬ csPrefix [lbrace] s ∧ itemsHeadTest s then lbrace :: (s ++ [rbrace]) else s
  escNlGo false false s

/-- The route's `sanitizeJsonString` on `String`. -/
def sanitizeJsonString (s : String) : String := ⟨sanitizeL s.data⟩

/-! ## Bracket-aware items-array extraction and the salvage stages -/

/-- Does `cs` start with a double-quoted `name` followed by optional
whitespace and a colon (the row-field marker regex)? -/
def markerAt (cs : List Char) (name : List Char) : Bool :=
  if csPrefix ('"' :: (name ++ ['"'])) cs then
    (((cs.drop (name.length + 2)).dropWhile isJsWsC).head? = some ':' : Bool)
  else false

/-- Does the marker occur anywhere in `cs`? -/
def hasMarkerSub (cs name : List Char) : Bool :=
  match cs with
  | [] => false
  | _ :: rest => markerAt cs name || hasMarkerSub rest name

/-- Test for the `"ModelCode":` or `"ModelDescription":` row-field marker. -/
def hasFieldMarker (cs : List Char) : Bool :=
  hasMarkerSub cs "ModelCode".data || hasMarkerSub cs "ModelDescription".data

/-- Port of the scan inside `extractLikelyItemsArray`: bracket depth with
string/escape state, `start`/`depth` as in the source (−1 sentinel). -/
def eliaGo (cs : List Char) (i : Nat) (inStr esc : Bool) (depth : Int)
    (start : Int) (orig : List Char) : Option (List Char) :=
  match cs with
  | [] => none
  | ch :: rest =>
    if esc then eliaGo rest (i + 1) inStr false depth start orig
    else if ch = '\\' then eliaGo rest (i + 1) inStr true depth start orig
    else if ch = '"' then eliaGo rest (i + 1) (!inStr) false depth start orig
    else if inStr then eliaGo rest (i + 1) inStr false depth start orig
    else if ch = '[' then
      eliaGo rest (i + 1) inStr false (depth + 1)
        (if depth = 0 then (i : Int) else start) orig
    else if ch = ']' then
      let depth2 := depth - 1
      if depth2 = 0 ∧ start ≠ -1 then
        let slice := sliceL orig start.toNat (i + 1)
        if hasFieldMarker slice then some slice
        else eliaGo rest (i + 1) inStr false depth2 (-1) orig
      else eliaGo rest (i + 1) inStr false depth2 start orig
    else eliaGo rest (i + 1) inStr false depth start orig

/-- Port of `extractLikelyItemsArray`. -/
def extractLikelyItemsArray (cs : List Char) : Option (List Char) :=
  eliaGo cs 0 false false 0 (-1) cs

/-- Port of `tryParseJSON`: sanitize, then four parse attempts in source
order with the source's `-1`-sentinel index guards. -/
def tryParseJSON (raw : String) : Option Json :=
  let clean := sanitizeJsonString raw
  match jsonParse clean with
  | some v => some v
  | none =>
    let cs := clean.data
    let so := jsIndexOf cs lbrace
    let eo := jsLastIndexOf cs rbrace
    let r2 : Option Json :=
      if so ≠ -1 ∧ eo > so then jsonParse ⟨sliceL cs so.toNat (eo.toNat + 1)⟩ else none
    match r2 with
    | some v => some v
    | none =>
      let sa := jsIndexOf cs '['
      let ea := jsLastIndexOf cs ']'
      let r3 : Option Json :=
        if sa ≠ -1 ∧ ea > sa then jsonParse ⟨sliceL cs sa.toNat (ea.toNat + 1)⟩ else none
      match r3 with
      | some v => some v
      | none =>
        match extractLikelyItemsArray cs with
        | some arrSlice =>
          match jsonParse ⟨arrSlice⟩ with
          | some arrv => some (Json.obj [("items", arrv)])
          | none => none
        | none => none

/-- Specification-side stage 1: parse the sanitized text directly. -/
def stageDirect (clean : String) : Option Json := jsonParse clean

/-- Specification-side stage 2: parse the slice from the first brace to the
last brace, when the first strictly precedes the last. -/
def stageObjectSlice (clean : String) : Option Json :=
  match firstIdx? clean.data lbrace, lastIdx? clean.data rbrace with
  | some i, some j => if i < j then jsonParse ⟨sliceL clean.data i (j + 1)⟩ else none
  | _, _ => none

/-- Specification-side stage 3: parse the slice from the first bracket to
the last bracket, when the first strictly precedes the last. -/
def stageArraySlice (clean : String) : Option Json :=
  match firstIdx? clean.data '[', lastIdx? clean.data ']' with
  | some i, some j => if i < j then jsonParse ⟨sliceL clean.data i (j + 1)⟩ else none
  | _, _ => none

/-- Specification-side stage 4: bracket-aware scan for the first top-level
array with a row-field marker, parsed alone and wrapped as an items object. -/
def stageItemsWrap (clean : String) : Option Json :=
  match extractLikelyItemsArray clean.data with
  | some a =>
    match jsonParse ⟨a⟩ with
    | some arrv => some (Json.obj [("items", arrv)])
    | none => none
  | none => none

/-- The salvage pipeline as the specification words it: sanitize once, then
the four stages tried in order, short-circuiting on the first success. -/
def salvageSpec (raw : String) : Option Json :=
  let clean := sanitizeJsonString raw
  (((stageDirect clean).orElse (fun _ => stageObjectSlice clean)).orElse
      (fun _ => stageArraySlice clean)).orElse (fun _ => stageItemsWrap clean)

/-! ## The POST handler's treatment of the model output -/

/-- Outcome of the POST handler on the raw model response: the parsed value,
or the error payload built at route.ts lines 195-200. -/
inductive PostOutcome where
  | okJson (v : Json)
  | failPayload (error detail : String)

/-- JS `String.prototype.slice(0, n)`. -/
def jsTake (s : String) (n : Nat) : String := ⟨s.data.take n⟩

/-- Port of the POST handler's use of `tryParseJSON`: on failure the route
answers with the fixed message and the first 2000 characters of the raw
(unsanitized) response. -/
def postHandleModelOutput (raw : String) : PostOutcome :=
  match tryParseJSON raw with
  | some v => PostOutcome.okJson v
  | none => PostOutcome.failPayload "Model returned non-JSON." (jsTake raw 2000)

/-! ## Money and currency parsing (src/lib/priceExtractor.ts) -/

/-- Characters kept by `parseMoney`'s strip `replace(/[^\d.,-]/g, "")`. -/
def moneyKeep (c : Char) : Bool := c.isDigit || c = '.' || c = ',' || c = '-'

/-- JS `Number()` on the digits/dot/comma/minus alphabet that survives the
strip: the decimal-literal grammar, with the empty string evaluating to 0. -/
def jsNum (cs : List Char) : Option ℚ :=
  match cs with
  | [] => some 0
  | _ =>
    let (neg, rest) := if cs.head? = some '-' then (true, cs.tail) else (false, cs)
    let ip := rest.takeWhile Char.isDigit
    let r2 := rest.dropWhile Char.isDigit
    match r2 with
    | [] =>
      if ip = [] then none
      else some (decScale (if neg then -(natVal ip : Int) else (natVal ip : Int)) 0)
    | '.' :: fp =>
      if fp.all Char.isDigit ∧ ¬ (ip = [] ∧ fp = []) then
        let m : Int := (natVal ip : Int) * (10 : Int) ^ fp.length + (natVal fp : Int)
        some (decScale (if neg then -m else m) (-(fp.length : Int)))
      else none
    | _ => none

/-- Replace the first comma by a dot (JS `x.replace(",", ".")`). -/
def replaceFirstComma : List Char → List Char
  | [] => []
  | c :: cs => if c = ',' then '.' :: cs else c :: replaceFirstComma cs

/-- JS `Math.round(w)` as an integer: `⌊w + 1/2⌋` (ties round toward
positive infinity), computed by integer floor division so that it evaluates
by kernel reduction. -/
def jsRound (w : ℚ) : Int := Int.fdiv (2 * w.num + (w.den : Int)) (2 * (w.den : Int))

/-- JS `Math.round(v * 100) / 100` (ties round toward positive infinity). -/
def round2 (v : ℚ) : ℚ := Rat.divInt (jsRound (Rat.divInt (v.num * 100) (v.den : Int))) 100

/-- Port of `parseMoney` (priceExtractor.ts lines 62-79) on a char list. -/
def parseMoneyL (s : List Char) : ℚ :=
  let x := jsTrimL (s.filter moneyKeep)
  if x = [] then 0
  else
    let neg := x.head? = some '-'
    let x1 := if neg then x.tail else x
    let x2 :=
      if x1.contains ',' ∧ x1.contains '.' then
        if jsLastIndexOf x1 ',' > jsLastIndexOf x1 '.' then x1.filter (· ≠ '.')
        else x1.filter (· ≠ ',')
      else x1
    let x3 := replaceFirstComma x2
    match jsNum x3 with
    | none => 0
    | some n => round2 (if neg then -n else n)

/-- `parseMoney` on `String`. -/
def parseMoney (s : String) : ℚ := parseMoneyL s.data

/-- The three ISO currencies the extractor distinguishes. -/
inductive Currency where
  | EUR : Currency
  | USD : Currency
  | GBP : Currency
deriving DecidableEq, Repr

/-- Currency symbol class `[€$£]`. -/
def currencySymC (c : Char) : Bool := c = '€' || c = '$' || c = '£'

/-- Word-boundary check for the character before a match position. -/
def bOkPrev (prev : Option Char) : Bool :=
  match prev with
  | some p => ¬ isWordC p
  | none => true

/-- Word-boundary check for the character after a match. -/
def afterBoundary (cs : List Char) : Bool :=
  match cs.head? with
  | some c => ¬ isWordC c
  | none => true

/-- Occurrence of `pat` (case-insensitive) followed by a word boundary, with
no boundary requirement before — the shape of `/EUR\b/i`. -/
def ciSubWordEnd (cs pat : List Char) : Bool :=
  match cs with
  | [] => false
  | _ :: rest =>
    (ciPrefix pat cs && afterBoundary (cs.drop pat.length)) || ciSubWordEnd rest pat

/-- Port of `currencyFromText` (priceExtractor.ts lines 81-90), including the
trailing symbol-match fallback of the source. -/
def currencyFromText (txt : String) : Currency :=
  let cs := txt.data
  if cs.contains '€' || ciSubWordEnd cs "EUR".data then Currency.EUR
  else if cs.contains '$' || ciSubWordEnd cs "USD".data then Currency.USD
  else if cs.contains '£' || ciSubWordEnd cs "GBP".data then Currency.GBP
  else
    match cs.find? currencySymC with
    | some m =>
      if m = '€' then Currency.EUR
      else if m = '$' then Currency.USD
      else if m = '£' then Currency.GBP
      else Currency.EUR
    | none => Currency.EUR

/-! ## Token scanners for MODEL_RX and PRICE_RX -/

/-- Continuation class `[-A-Z0-9._ slash]` (with the `i` flag) of `MODEL_RX`. -/
def isModelClass2 (c : Char) : Bool :=
  c.isAlphanum || c = '.' || c = '_' || c = '/' || c = '-'

/-- All matches of `MODEL_RX` (alphanumeric start, then two or more of letters, digits, dot, underscore, slash, dash, greedy, global, case-insensitive): an
alphanumeric start followed by a maximal run of at least two class
characters; the scan advances one position on failure. -/
def modelTokensGo (fuel : Nat) (cs : List Char) : List (List Char) :=
  match fuel with
  | 0 => []
  | fuel + 1 =>
    match cs with
    | [] => []
    | c :: rest =>
      if c.isAlphanum then
        let run := rest.takeWhile isModelClass2
        if run.length ≥ 2 then
          (c :: run) :: modelTokensGo fuel (rest.dropWhile isModelClass2)
        else modelTokensGo fuel rest
      else modelTokensGo fuel rest

/-- All `MODEL_RX` matches of a line. -/
def modelTokens (cs : List Char) : List (List Char) := modelTokensGo (cs.length + 1) cs

/-- Greedy star `(?:[.,]\d{3})*` of `PRICE_RX`: returns consumed length and
remainder. -/
def priceStarGo (pos : Nat) : List Char → (Nat × List Char)
  | s :: d1 :: d2 :: d3 :: rest =>
    if (s = '.' || s = ',') && d1.isDigit && d2.isDigit && d3.isDigit then
      priceStarGo (pos + 4) rest
    else (pos, s :: d1 :: d2 :: d3 :: rest)
  | other => (pos, other)

/-- Optional `(?:[.,]\d{2})?` of `PRICE_RX`'s first alternative. -/
def priceOptLen (pos : Nat) : List Char → Nat
  | s :: d1 :: d2 :: _ =>
    if (s = '.' || s = ',') && d1.isDigit && d2.isDigit then pos + 3 else pos
  | _ => pos

/-- First alternative `[€$£]?\s?\d{1,3}(?:[.,]\d{3})*(?:[.,]\d{2})?` of
`PRICE_RX` at the head of `cs`: match length, if any. -/
def priceAlt1 (cs : List Char) : Option Nat :=
  let (n1, r1) :=
    match cs with
    | c :: r => if currencySymC c then (1, r) else (0, cs)
    | [] => (0, cs)
  let (n2, r2) :=
    match r1 with
    | c :: r => if isJsWsC c then (n1 + 1, r) else (n1, r1)
    | [] => (n1, r1)
  let digs := r2.takeWhile Char.isDigit
  if digs.isEmpty then none
  else
    let k := min digs.length 3
    let (n3, r3) := priceStarGo (n2 + k) (r2.drop k)
    some (priceOptLen n3 r3)

/-- Second alternative `\b(?:EUR|USD|GBP)\s*\d+(?:[.,]\d{2})?\b` of
`PRICE_RX` (case-sensitive) at the head of `cs`, given the previous
character: match length, if any. -/
def priceAlt2 (prev : Option Char) (cs : List Char) : Option Nat :=
  if ¬ bOkPrev prev then none
  else
    let kw : Option Nat :=
      if csPrefix "EUR".data cs then some 3
      else if csPrefix "USD".data cs then some 3
      else if csPrefix "GBP".data cs then some 3
      else none
    match kw with
    | none => none
    | some k =>
      let r1 := cs.drop k
      let wsn := (r1.takeWhile isJsWsC).length
      let r2 := r1.dropWhile isJsWsC
      let digs := r2.takeWhile Char.isDigit
      if digs.isEmpty then none
      else
        let base := k + wsn + digs.length
        let r3 := r2.drop digs.length
        let withOpt : Option Nat :=
          match r3 with
          | s :: d1 :: d2 :: rest =>
            if (s = '.' || s = ',') && d1.isDigit && d2.isDigit && afterBoundary rest then
              some (base + 3)
            else none
          | _ => none
        match withOpt with
        | some n => some n
        | none => if afterBoundary r3 then some base else none

/-- One `PRICE_RX` attempt at a position: alternative 1, then alternative 2. -/
def priceMatchAt (prev : Option Char) (cs : List Char) : Option Nat :=
  match priceAlt1 cs with
  | some n => some n
  | none => priceAlt2 prev cs

/-- All `PRICE_RX` matches (JS `matchAll`): leftmost, non-overlapping. -/
def priceTokensGo (fuel : Nat) (prev : Option Char) (cs : List Char) : List (List Char) :=
  match fuel with
  | 0 => []
  | fuel + 1 =>
    match cs with
    | [] => []
    | c :: rest =>
      match priceMatchAt prev cs with
      | some n =>
        (cs.take n) :: priceTokensGo fuel ((cs.take n).getLast?) (cs.drop n)
      | none => priceTokensGo fuel (some c) rest

/-- All `PRICE_RX` matches of a line. -/
def priceTokens (cs : List Char) : List (List Char) := priceTokensGo (cs.length + 1) none cs

/-- JS `line.replace(PRICE_RX, "")`: the line with all matches removed. -/
def priceStripGo (fuel : Nat) (prev : Option Char) (cs : List Char) : List Char :=
  match fuel with
  | 0 => cs
  | fuel + 1 =>
    match cs with
    | [] => []
    | c :: rest =>
      match priceMatchAt prev cs with
      | some n => priceStripGo fuel ((cs.take n).getLast?) (cs.drop n)
      | none => c :: priceStripGo fuel (some c) rest

/-- The price-stripped line used for description context. -/
def priceStrip (cs : List Char) : List Char := priceStripGo (cs.length + 1) none cs

/-! ## Price-likeness, boilerplate and tier keywords -/

/-- Generic scan: does `p` hold on some suffix (with its preceding char)? -/
def anySuffixPrev (p : Option Char → List Char → Bool) : Option Char → List Char → Bool
  | prev, [] => p prev []
  | prev, c :: rest => p prev (c :: rest) || anySuffixPrev p (some c) rest

/-- Generic scan: does `p` hold on some suffix? -/
def anySuffix (p : List Char → Bool) : List Char → Bool
  | [] => p []
  | c :: rest => p (c :: rest) || anySuffix p rest

/-- Test `/[.,]\d{2}\b/` at one position. -/
def decAt (cs : List Char) : Bool :=
  match cs with
  | s :: d1 :: d2 :: rest =>
    (s = '.' || s = ',') && d1.isDigit && d2.isDigit && afterBoundary rest
  | _ => false

/-- Occurrence of a literal word with boundaries on both sides
(`/\b…\b/i`). -/
def wordAltAt (lit : List Char) (prev : Option Char) (cs : List Char) : Bool :=
  bOkPrev prev && ciPrefix lit cs && afterBoundary (cs.drop lit.length)

/-- Does any of the literal alternatives occur word-bounded in `cs`? -/
def wordAnyTest (cs : List Char) (lits : List (List Char)) : Bool :=
  anySuffixPrev (fun prev s => lits.any (fun lit => wordAltAt lit prev s)) none cs

/-- Test `/\b20\d{2}\b/` at one position. -/
def yearAt (prev : Option Char) (cs : List Char) : Bool :=
  match cs with
  | c1 :: c2 :: c3 :: c4 :: rest =>
    bOkPrev prev && c1 = '2' && c2 = '0' && c3.isDigit && c4.isDigit && afterBoundary rest
  | _ => false

/-- Test `/page\s*\d+/i` at one position (no boundaries in the source). -/
def pageAt (cs : List Char) : Bool :=
  ciPrefix "page".data cs &&
    (match ((cs.drop 4).dropWhile isJsWsC).head? with
     | some c => c.isDigit
     | none => false)

/-- Test `/\b\d+\s*\/\s*\d+\b/` at one position. -/
def fracAt (prev : Option Char) (cs : List Char) : Bool :=
  bOkPrev prev &&
    (let d1 := cs.takeWhile Char.isDigit
     ¬ d1.isEmpty &&
       (match (cs.dropWhile Char.isDigit).dropWhile isJsWsC with
        | '/' :: r2 =>
          let r3 := r2.dropWhile isJsWsC
          let d2 := r3.takeWhile Char.isDigit
          ¬ d2.isEmpty && afterBoundary (r3.drop d2.length)
        | _ => false))

/-- Port of `isLikelyPrice` (priceExtractor.ts lines 52-59). -/
def isLikelyPrice (t : List Char) : Bool :=
  let s := jsTrimL t
  let dec := anySuffix decAt s
  let sym := s.any currencySymC ||
    wordAnyTest s ["EUR".data, "USD".data, "GBP".data]
  let year := anySuffixPrev yearAt none s
  let pageish := anySuffix pageAt s || anySuffixPrev fracAt none s
  (sym || dec) && !year && !pageish

/-- Test of `page\s*\d+` as an alternative inside `/\b(…)\b/i`: boundary
before `page`, boundary after the greedy digit run. -/
def pageWordAt (prev : Option Char) (cs : List Char) : Bool :=
  bOkPrev prev && ciPrefix "page".data cs &&
    (let r := (cs.drop 4).dropWhile isJsWsC
     let d := r.takeWhile Char.isDigit
     ¬ d.isEmpty && afterBoundary (r.drop d.length))

/-- Port of `isBoilerplate` (priceExtractor.ts lines 48-50). -/
def isBoilerplate (l : List Char) : Bool :=
  anySuffixPrev
    (fun prev s =>
      pageWordAt prev s ||
        ["terms".data, "validity".data, "prepared for".data, "price list".data,
          "trade price".data, "copyright".data].any (fun lit => wordAltAt lit prev s))
    none l ||
  (let r := l.dropWhile isJsWsC
   r.isEmpty ||
     (let d1 := r.takeWhile Char.isDigit
      ¬ d1.isEmpty &&
        (match (r.dropWhile Char.isDigit).dropWhile isJsWsC with
         | '/' :: r2 =>
           let r3 := r2.dropWhile isJsWsC
           let d2 := r3.takeWhile Char.isDigit
           ¬ d2.isEmpty && (r3.dropWhile Char.isDigit).isEmpty
         | _ => false)))

/-- Price tiers. -/
inductive Tier where
  | T1 : Tier
  | T2 : Tier
deriving DecidableEq, Repr

/-- Port of `labelFromContext` (priceExtractor.ts lines 125-129). -/
def labelFromContext (context : List Char) : Tier :=
  if wordAnyTest context ["MSRP".data, "list".data, "retail".data] then Tier.T1
  else if wordAnyTest context
      ["net".data, "dealer".data, "trade".data, "discount".data, "offer".data] then Tier.T2
  else Tier.T2

/-! ## Rows, meta guessing and the extraction engine -/

/-- Caller-supplied metadata (the source's `Meta`). -/
structure Meta where
  supplier : String
  manufacturer : String
  validityDate : String
  fileName : String
deriving DecidableEq, Repr

/-- The emitted row schema (the source's `PriceRow`), with JS numbers as `ℚ`. -/
structure PriceRow where
  Supplier : String
  Manufacturer : String
  ModelCode : String
  ModelDescription : String
  T1List : ℚ
  T1Cost : ℚ
  T2List : ℚ
  T2Cost : ℚ
  ISOCurrency : Currency
  ValidityDate : String
  T1orT2 : Tier
  MaterialID : String
  SAPNumber : String
  ModelDescriptionEnglish : String
  ModelDescriptionLanguage2 : String
  ModelDescriptionLanguage3 : String
  ModelDescriptionLanguage4 : String
  QuoteOrPriceList : String
  WeightKg : ℚ
  HeightMm : ℚ
  LengthMm : ℚ
  WidthMm : ℚ
  PowerWatts : ℚ
  FileName : String
deriving DecidableEq, Repr

/-- Port of `makeRow` (priceExtractor.ts lines 131-174). -/
def makeRow (meta : Meta) (currency : Currency) (modelCode desc : String)
    (priceValue : ℚ) (tier : Tier) : PriceRow :=
  let description := if jsTrim desc = "" then modelCode else jsTrim desc
  { Supplier := meta.supplier
    Manufacturer := meta.manufacturer
    ModelCode := modelCode
    ModelDescription := description
    T1List := if tier = Tier.T1 then priceValue else 0
    T1Cost := if tier = Tier.T1 then priceValue else 0
    T2List := if tier = Tier.T2 then priceValue else 0
    T2Cost := if tier = Tier.T2 then priceValue else 0
    ISOCurrency := currency
    ValidityDate := meta.validityDate
    T1orT2 := tier
    MaterialID := modelCode
    SAPNumber := modelCode
    ModelDescriptionEnglish := description
    ModelDescriptionLanguage2 := "LANGUAGE 2"
    ModelDescriptionLanguage3 := "LANGUAGE 3"
    ModelDescriptionLanguage4 := "LANGUAGE 4"
    QuoteOrPriceList := "Price List"
    WeightKg := 0
    HeightMm := 0
    LengthMm := 0
    WidthMm := 0
    PowerWatts := 0
    FileName := meta.fileName }

/-- Character class `[A-Z0-9 ()&.,-]` plus slash of the all-caps-ish
manufacturer line pattern (case-sensitive). -/
def capClassC (c : Char) : Bool :=
  ('A' ≤ c && c ≤ 'Z') || c.isDigit || c = ' ' || c = '(' || c = ')' ||
  c = '&' || c = '.' || c = ',' || c = '/' || c = '-'

/-- Test `/PRICE\s*LIST/i` anywhere in a line. -/
def priceListTest (l : List Char) : Bool :=
  anySuffix
    (fun s => ciPrefix "PRICE".data s && ciPrefix "LIST".data ((s.drop 5).dropWhile isJsWsC)) l

/-- Earliest line of maximal length (JS stable sort by descending length,
then index 0). -/
def pickLongest : List (List Char) → List Char
  | [] => []
  | l :: ls =>
    let r := pickLongest ls
    if r.length > l.length then r else l

/-- Removal of one trailing `\s*[.,:;-]+` run (the source's anchored
replace on the manufacturer guess). -/
def stripTrailingPunct (l : List Char) : List Char :=
  let isPunct : Char → Bool := fun c => c = '.' || c = ',' || c = ':' || c = ';' || c = '-'
  let rev := l.reverse
  if (rev.takeWhile isPunct).isEmpty then l
  else ((rev.dropWhile isPunct).dropWhile isJsWsC).reverse

/-- Manufacturer/supplier guess of `guessMetaFromText`: the longest
all-caps-ish line (length at least 6, not matching PRICE LIST) among the
first 50 non-blank trimmed lines, with trailing punctuation stripped. -/
def guessMfg (text : List Char) : List Char :=
  let lines := ((splitRN text).map jsTrimL).filter (fun l => ¬ l.isEmpty)
  let top := joinWith '\n' (lines.take 50)
  let capLines := (splitNL top).filter
    (fun l => l.length ≥ 6 && l.all capClassC && ¬ priceListTest l)
  if capLines.isEmpty then [] else jsTrimL (stripTrailingPunct (pickLongest capLines))

/-- Date separator class of the date regexes. -/
def dateSepC (c : Char) : Bool := c = '-' || c = '/' || c = '.'

/-- ISO date pattern (year-month-day with word boundaries) at one position. -/
def isoDateAt (prev : Option Char) (cs : List Char) : Option (List Char) :=
  match cs with
  | y1 :: y2 :: y3 :: y4 :: s1 :: m1 :: m2 :: s2 :: d1 :: d2 :: rest =>
    if bOkPrev prev && y1 = '2' && y2 = '0' && y3.isDigit && y4.isDigit &&
        dateSepC s1 &&
        ((m1 = '0' && '1' ≤ m2 && m2 ≤ '9') || (m1 = '1' && '0' ≤ m2 && m2 ≤ '2')) &&
        dateSepC s2 &&
        ((d1 = '0' && '1' ≤ d2 && d2 ≤ '9') || ((d1 = '1' || d1 = '2') && d2.isDigit) ||
          (d1 = '3' && (d2 = '0' || d2 = '1'))) &&
        afterBoundary rest then
      some [y1, y2, y3, y4, s1, m1, m2, s2, d1, d2]
    else none
  | _ => none

/-- Day-first date pattern (day-month-year with word boundaries) at one
position. -/
def dayFirstAt (prev : Option Char) (cs : List Char) : Option (List Char) :=
  match cs with
  | d1 :: d2 :: s1 :: m1 :: m2 :: s2 :: y1 :: y2 :: y3 :: y4 :: rest =>
    if bOkPrev prev &&
        ((d1 = '0' && '1' ≤ d2 && d2 ≤ '9') || ((d1 = '1' || d1 = '2') && d2.isDigit) ||
          (d1 = '3' && (d2 = '0' || d2 = '1'))) &&
        dateSepC s1 &&
        ((m1 = '0' && '1' ≤ m2 && m2 ≤ '9') || (m1 = '1' && '0' ≤ m2 && m2 ≤ '2')) &&
        dateSepC s2 &&
        y1 = '2' && y2 = '0' && y3.isDigit && y4.isDigit &&
        afterBoundary rest then
      some [d1, d2, s1, m1, m2, s2, y1, y2, y3, y4]
    else none
  | _ => none

/-- Month-name abbreviations of the third date pattern. -/
def monthAbbrevs : List (List Char) :=
  ["Jan".data, "Feb".data, "Mar".data, "Apr".data, "May".data, "Jun".data,
   "Jul".data, "Aug".data, "Sep".data, "Oct".data, "Nov".data, "Dec".data]

/-- Month-name date pattern (month word, whitespace, 20xx, boundaries,
case-insensitive) at one position. -/
def monthNameAt (prev : Option Char) (cs : List Char) : Option (List Char) :=
  if bOkPrev prev && monthAbbrevs.any (fun m => ciPrefix m cs) then
    let letters := (cs.drop 3).takeWhile Char.isAlpha
    let r1 := (cs.drop 3).dropWhile Char.isAlpha
    let ws := r1.takeWhile isJsWsC
    let r2 := r1.dropWhile isJsWsC
    if ws.isEmpty then none
    else
      match r2 with
      | y1 :: y2 :: y3 :: y4 :: rest =>
        if y1 = '2' && y2 = '0' && y3.isDigit && y4.isDigit && afterBoundary rest then
          some (cs.take 3 ++ letters ++ ws ++ [y1, y2, y3, y4])
        else none
      | _ => none
  else none

/-- First match of a position-wise matcher, scanning left to right. -/
def firstMatchPrev (f : Option Char → List Char → Option (List Char)) :
    Option Char → List Char → Option (List Char)
  | prev, [] => f prev []
  | prev, c :: rest => (f prev (c :: rest)).orElse (fun _ => firstMatchPrev f (some c) rest)

/-- Validity-date guess of `guessMetaFromText`: first ISO date, else first
day-first date, else first month-name date, in the top 50 lines. -/
def guessValidity (text : List Char) : List Char :=
  let lines := ((splitRN text).map jsTrimL).filter (fun l => ¬ l.isEmpty)
  let top := joinWith '\n' (lines.take 50)
  (((firstMatchPrev isoDateAt none top).orElse
      (fun _ => firstMatchPrev dayFirstAt none top)).orElse
      (fun _ => firstMatchPrev monthNameAt none top)).getD []

/-- Collapse of whitespace runs to single spaces (JS `replace(/\s+/g, " ")`). -/
def normWsGo (fuel : Nat) : List Char → List Char
  | [] => []
  | c :: rest =>
    match fuel with
    | 0 => c :: rest
    | fuel + 1 =>
      if isJsWsC c then ' ' :: normWsGo fuel (rest.dropWhile isJsWsC)
      else c :: normWsGo fuel rest

/-- Whitespace normalization on a char list. -/
def normWs (cs : List Char) : List Char := normWsGo (cs.length + 1) cs

/-- Tier as the string the source writes into the dedup key. -/
def tierStr : Tier → String
  | Tier.T1 => "T1"
  | Tier.T2 => "T2"

/-- Currency as the string the source writes into the dedup key. -/
def currencyStr : Currency → String
  | Currency.EUR => "EUR"
  | Currency.USD => "USD"
  | Currency.GBP => "GBP"

/-- JS `a || b` on numbers (0 is falsy; NaN cannot arise here). -/
def jsOrQ (a b : ℚ) : ℚ := if a = 0 then b else a

/-- Port of `dedupKey` (priceExtractor.ts lines 251-258): the composite of
trimmed model code, first 80 whitespace-normalized description characters,
tier, `T1List || T2List`, and currency, joined with pipes.  The source
stringifies the number via JS number printing; any injective printing gives
the same dedup behaviour, so `toString` on `ℚ` is used here. -/
def dedupKey (r : PriceRow) : String :=
  String.intercalate "|"
    [jsTrim r.ModelCode,
     (⟨(jsTrimL (normWs r.ModelDescription.data)).take 80⟩ : String),
     tierStr r.T1orT2,
     toString (jsOrQ r.T1List r.T2List),
     currencyStr r.ISOCurrency]

/-- Port of the `seen`-set filter over the synthesized rows. -/
def dedupGo (seen : List String) : List PriceRow → List PriceRow
  | [] => []
  | r :: rs =>
    if seen.contains (dedupKey r) then dedupGo seen rs
    else r :: dedupGo (dedupKey r :: seen) rs

/-- Scan state of the extraction loop: the two context windows and the
accumulated rows. -/
structure ScanSt where
  contextCodes : List String
  contextDesc : List String
  rows : List PriceRow

/-- Port of `pushContext` (priceExtractor.ts lines 216-228). -/
def pushContext (st : ScanSt) (line : List Char) : ScanSt :=
  let codes := (modelTokens line).filter
    (fun c => c.any Char.isAlpha && c.any Char.isDigit)
  let newCodes := if codes.isEmpty then st.contextCodes
    else (lastN 6 codes).map (fun l => (⟨l⟩ : String))
  let cleaned := jsTrimL (priceStrip line)
  let newDesc :=
    if cleaned.isEmpty then st.contextDesc
    else
      let d := st.contextDesc ++ [(⟨cleaned⟩ : String)]
      if d.length > 6 then d.tail else d
  { contextCodes := newCodes, contextDesc := newDesc, rows := st.rows }

/-- One line of the extraction loop: update context, find price tokens,
synthesize a row per surviving nonzero token. -/
def stepLine (meta : Meta) (currency : Currency) (st : ScanSt) (line : List Char) : ScanSt :=
  let st := pushContext st line
  let raws := (priceTokens line).filter isLikelyPrice
  raws.foldl
    (fun st tok =>
      let model := (st.contextCodes.getLast?).getD ("ITEM_" ++ toString (st.rows.length + 1))
      let desc0 := String.intercalate " " (lastN 3 st.contextDesc)
      let desc := if desc0 = "" then "Price Item" else desc0
      let tier := labelFromContext
        ((String.intercalate " " (lastN 4 st.contextDesc)).data ++ ' ' :: line)
      let price := parseMoneyL tok
      if price = 0 then st
      else { st with rows := st.rows ++ [makeRow meta currency model desc price tier] })
    st

/-- Lines of the scan: split, trimmed, with blank and boilerplate lines
dropped (priceExtractor.ts lines 207-210). -/
def processedLines (text : String) : List (List Char) :=
  ((splitRN text.data).map jsTrimL).filter
    (fun l => ¬ l.isEmpty && ¬ isBoilerplate l)

/-- Caller meta merged field-by-field with the guessed values (fill only
blank fields; caller-supplied values win). -/
def mergedMeta (text : String) (meta : Meta) : Meta :=
  let gMfg : String := ⟨guessMfg text.data⟩
  let gVal : String := ⟨guessValidity text.data⟩
  { supplier := if meta.supplier = "" then gMfg else meta.supplier
    manufacturer := if meta.manufacturer = "" then gMfg else meta.manufacturer
    validityDate := if meta.validityDate = "" then gVal else meta.validityDate
    fileName := meta.fileName }

/-- The rows synthesized by the scan loop, in price-token encounter order,
before deduplication. -/
def rawRows (text : String) (meta : Meta) : List PriceRow :=
  ((processedLines text).foldl
    (stepLine (mergedMeta text meta) (currencyFromText text)) ⟨[], [], []⟩).rows

/-- The pure extraction core of `extractFromPdf` (priceExtractor.ts lines
187-269), taking the already-decoded document text: currency detection,
meta merging, line filtering, the scan loop, and first-wins deduplication. -/
def extractCore (text : String) (meta : Meta) : List PriceRow :=
  dedupGo [] (rawRows text meta)

/-- The accepted input types of `toBuffer`, tracked by byte length only
(the byte contents feed the external PDF decoder, which is outside the
verified core). -/
inductive PdfInput where
  | nodeBuffer (len : Nat)
  | uint8Array (len : Nat)
  | arrayBuffer (len : Nat)
deriving DecidableEq, Repr

/-- Port of `toBuffer` (priceExtractor.ts lines 176-183): a Node `Buffer`
is returned unchecked; the other input types raise on zero length. -/
def toBuffer : PdfInput → Except String Nat
  | PdfInput.nodeBuffer n => Except.ok n
  | PdfInput.uint8Array n =>
    if n = 0 then Except.error "Uploaded PDF is empty (0 bytes)." else Except.ok n
  | PdfInput.arrayBuffer n =>
    if n = 0 then Except.error "Uploaded PDF is empty (0 bytes)." else Except.ok n

/-- Port of `extractFromPdf`: the buffer check, then the pure core on the
text produced by the external `pdfParse` collaborator (modelled by the
`pdfText` parameter, the source's `parsed.text || ""`). -/
def extractFromPdf (input : PdfInput) (pdfText : String) (meta : Meta) :
    Except String (List PriceRow) :=
  match toBuffer input with
  | Except.error e => Except.error e
  | Except.ok _ => Except.ok (extractCore pdfText meta)

/-! ## Specification-side definitions used to state the claims -/

/-- First-occurrence-per-key deduplication as the specification words it:
keep the first row of each composite key, drop every later row with the
same key, preserve the order of survivors. -/
def firstOccurrences : List PriceRow → List PriceRow
  | [] => []
  | r :: rs =>
    r :: firstOccurrences (rs.filter (fun x => dedupKey x ≠ dedupKey r))
termination_by l => l.length
decreasing_by
  simp only [List.length_cons]
  exact Nat.lt_succ_of_le (List.length_filter_le _ _)

/-- Currency scan as the specification's branch structure reads on the
source: EUR, then USD, then GBP, each by symbol-or-code, defaulting to EUR
(the source's trailing symbol fallback is dead code). -/
def currencySpec (txt : String) : Currency :=
  let cs := txt.data
  if cs.contains '€' || ciSubWordEnd cs "EUR".data then Currency.EUR
  else if cs.contains '$' || ciSubWordEnd cs "USD".data then Currency.USD
  else if cs.contains '£' || ciSubWordEnd cs "GBP".data then Currency.GBP
  else Currency.EUR

/-- Currency named by the first currency symbol of the text, as the claim
reads "the currency determined by the symbol". -/
def claimSymbolCurrency (txt : String) : Option Currency :=
  match txt.data.find? currencySymC with
  | some c =>
    if c = '€' then some Currency.EUR
    else if c = '$' then some Currency.USD
    else some Currency.GBP
  | none => none

/-- Case-insensitive substring occurrence (no boundary requirement). -/
def ciSub (cs pat : List Char) : Bool :=
  match cs with
  | [] => ciPrefix pat []
  | _ :: rest => ciPrefix pat cs || ciSub rest pat

/-- A text has zero recognizable price tokens when no processed line
carries a `PRICE_RX` match surviving the `isLikelyPrice` filter. -/
def noPriceTokens (text : String) : Prop :=
  ∀ l ∈ processedLines text, (priceTokens l).filter isLikelyPrice = []

/-- The ten decimal digit characters. -/
def digitChars : List Char := ['0', '1', '2', '3', '4', '5', '6', '7', '8', '9']

/-- The caller meta with every field blank. -/
def emptyMeta : Meta := ⟨"", "", "", ""⟩

/-- The near-JSON input of the spec's salvage example: unquoted keys,
single-quoted values, a trailing comma. -/
def c7Input : String :=
  "\x7bitems: [\x7bModelCode: " ++ sqt ++ "A1" ++ sqt ++ ", ModelDescription: " ++
    sqt ++ "x" ++ sqt ++ ",\x7d]\x7d"

/-- The spec's single-line extraction example. -/
def c9Line : String := "€ 4.377,00 MODEL-X Listino"

/-- The row the code actually produces on `c9Line`. -/
def c9Row : PriceRow :=
  makeRow emptyMeta Currency.EUR "ITEM_1" "MODEL-X Listino" 4377 Tier.T2

/-- Well-formed JSON whose string literal contains a block-comment-shaped
span. -/
def c10Input : String := "\x7b\"k\":\"a/*x*/b\"\x7d"

/-- Well-formed JSON left unchanged by the sanitizer. -/
def c10Witness : String := "\x7b\"a\":1\x7d"

/-! ## Theorems for the claims -/

/-- C7: on the spec's example input with an unquoted key, single-quoted
values and a trailing comma, the claim (and the repository README, which
advertises unquoted-key and single-quote repair) requires the salvage
pipeline to return Ok with the cleaned object; the code's sanitizer has no
key-quoting or quote-conversion step, so every one of the four parse stages
fails and `tryParseJSON` returns undefined.  This theorem evaluates the
code at the claim's input and exhibits the failure. -/
theorem salvage_unquoted_keys_bug : tryParseJSON c7Input = none := by rfl

/-- C6 counterexample: the sanitizer is not idempotent.  On `"json json"`
the chatty-lead-in rewrite strips one `json` token per application, so a
second application changes the output again. -/
theorem sanitize_not_idempotent_cex :
    sanitizeJsonString "json json" = "json" ∧
    sanitizeJsonString (sanitizeJsonString "json json") = "" ∧
    sanitizeJsonString (sanitizeJsonString "json json") ≠ sanitizeJsonString "json json" := by
  refine ⟨by decide, by decide, by decide⟩

/-- C6 amended: the sanitizer as a whole is not idempotent (the lead-in
rewrite can fire again on its own output), but its final pass — the
quoted-string newline escaper that the spec singles out as the step that
must run last — is idempotent: applying it to its own output changes
nothing, from any scanner state. -/
theorem escapeNewlines_idempotent :
    ∀ (s : String),
      escapeNewlinesInQuotedStrings (escapeNewlinesInQuotedStrings s) =
        escapeNewlinesInQuotedStrings s := by
  have go : ∀ (cs : List Char) (i e : Bool),
      escNlGo i e (escNlGo i e cs) = escNlGo i e cs := by
    intro cs
    induction cs with
    | nil => intro i e; rfl
    | cons c rest ih =>
      intro i e
      cases e with
      | true => simp [escNlGo, ih]
      | false =>
        by_cases hb : c = '\\'
        · subst hb; simp [escNlGo, ih]
        · by_cases hq : c = '"'
          · subst hq; simp [escNlGo, ih]
          · by_cases hn : i = true ∧ (c = '\n' ∨ c = '\r')
            · obtain ⟨hi, hc⟩ := hn
              subst hi
              rcases hc with hc | hc <;> subst hc <;> simp [escNlGo, ih]
            · simp only [escNlGo, if_neg hb, if_neg hq, if_neg hn, if_neg (by simp : ¬ (true = true ∧ False))]
              simp [escNlGo, hb, hq, hn, ih]
  intro s
  simp [escapeNewlinesInQuotedStrings, go]

/-- C8 counterexample: the claim requires the symbol's currency to win when
a symbol and a different ISO code are both present; on a text holding the
symbol `$` and the code `EUR`, the source returns EUR (its first branch
tests the EUR code before the `$` symbol), not the symbol's USD. -/
theorem currency_symbol_priority_cex :
    claimSymbolCurrency "$ 100 EUR" = some Currency.USD ∧
    ciSub "$ 100 EUR".data "EUR".data = true ∧
    currencyFromText "$ 100 EUR" = Currency.EUR ∧
    Currency.EUR ≠ Currency.USD := by
  refine ⟨by decide, by decide, by decide, by decide⟩

/-- C8 amended: `currencyFromText` always returns one of EUR, USD, GBP; it
tests, in order, EUR (symbol `€` or word-final code `EUR`), then USD, then
GBP, and otherwise returns the default EUR — so a EUR code outranks a
dollar or pound symbol, and the source's trailing symbol-only fallback is
dead code.  The theorem proves the source equal to this branch structure. -/
theorem currency_branch_order_amended :
    ∀ (txt : String), currencyFromText txt = currencySpec txt := by
  intro txt
  unfold currencyFromText currencySpec
  dsimp only
  split_ifs with h1 h2 h3
  · rfl
  · rfl
  · rfl
  · cases hf : txt.data.find? currencySymC with
    | none => rfl
    | some m =>
      have hmem : m ∈ txt.data := List.mem_of_find?_eq_some hf
      have hsym : currencySymC m = true := List.find?_some hf
      simp only [currencySymC, Bool.or_eq_true, decide_eq_true_eq] at hsym
      rcases hsym with (hm | hm) | hm
      · subst hm
        have hc : txt.data.contains '€' = true := List.elem_eq_true_of_mem hmem
        exact absurd (by rw [hc]; rfl) h1
      · subst hm
        have hc : txt.data.contains '$' = true := List.elem_eq_true_of_mem hmem
        exact absurd (by rw [hc]; rfl) h2
      · subst hm
        have hc : txt.data.contains '£' = true := List.elem_eq_true_of_mem hmem
        exact absurd (by rw [hc]; rfl) h3

/-- C9 counterexample: on the spec's line the claim requires ModelCode
`"MODEL-X"`; the identifier filter requires letters AND digits in a
candidate code, `MODEL-X` has no digit, so the context window stays empty
and the single produced row carries the synthesized code `ITEM_1`. -/
theorem extract_listino_line_cex :
    (extractCore c9Line emptyMeta).map PriceRow.ModelCode = ["ITEM_1"] ∧
    ("ITEM_1" : String) ≠ "MODEL-X" := by
  refine ⟨by decide, by decide⟩

/-- C9 amended: on the line `"€ 4.377,00 MODEL-X Listino"` with empty
caller meta, extraction produces exactly one row, whose ModelCode is the
synthesized `ITEM_1` (the digit-less `MODEL-X` is rejected by the
identifier filter), with currency EUR and the parsed value 4377 written
into both T2 fields (the tier defaults to T2: `Listino` matches no tier
keyword). -/
theorem extract_listino_line_amended :
    extractCore c9Line emptyMeta = [c9Row] ∧
    c9Row.ModelCode = "ITEM_1" ∧
    c9Row.ISOCurrency = Currency.EUR ∧
    c9Row.T2List = 4377 ∧
    c9Row.T2Cost = 4377 ∧
    c9Row.T1orT2 = Tier.T2 := by
  refine ⟨by decide, by decide, by decide, by decide, by decide, by decide⟩

/-- C10 counterexample: a well-formed JSON document whose string literal
contains a block-comment-shaped span parses on its own to a value holding
`"a/*x*/b"`, but the sanitizer rewrites inside the quoted literal, so the
salvage pipeline returns Ok with a different value holding `"ab"`. -/
theorem salvage_valid_json_altered_cex :
    jsonParse c10Input = some (Json.obj [("k", Json.str "a/*x*/b")]) ∧
    tryParseJSON c10Input = some (Json.obj [("k", Json.str "ab")]) ∧
    Json.obj [("k", Json.str "ab")] ≠ Json.obj [("k", Json.str "a/*x*/b")] := by
  refine ⟨by rfl, by rfl, by simp⟩

/-- C10 amended: sanitization can alter the parsed value of valid JSON
(inside string literals); but for every well-formed JSON input that the
sanitizer leaves unchanged, the pipeline returns Ok with exactly the value
the input denotes, via the direct parse stage. -/
theorem salvage_fixed_point_ok_amended (s : String) (v : Json)
    (hfix : sanitizeJsonString s = s) (hparse : jsonParse s = some v) :
    tryParseJSON s = some v := by
  unfold tryParseJSON
  dsimp only
  rw [hfix, hparse]

/-- C10 amended, witness: the fixed-point hypothesis and the parse
hypothesis hold at a concrete well-formed object, and the theorem applies. -/
theorem salvage_fixed_point_ok_amended_witness :
    tryParseJSON c10Witness = some (Json.obj [("a", Json.num 1)]) :=
  salvage_fixed_point_ok_amended c10Witness (Json.obj [("a", Json.num 1)])
    (by decide) (by rfl)

/-- C5 counterexample: the claim requires an error for a zero-length input
buffer of any accepted type, but a zero-length Node `Buffer` passes
`toBuffer` unchecked (its `isBuffer` branch returns before the length
test), and extraction returns an empty ok table instead of an error. -/
theorem extract_zero_buffer_cex :
    toBuffer (PdfInput.nodeBuffer 0) = Except.ok 0 ∧
    extractFromPdf (PdfInput.nodeBuffer 0) "" emptyMeta =
      Except.ok ([] : List PriceRow) := by
  refine ⟨by rfl, by rfl⟩

/-- Equivalence of one sentinel-guarded slice attempt of `tryParseJSON`
with its `Option`-formulated counterpart. -/
theorem sliceAttempt_equiv (cs : List Char) (c1 c2 : Char) :
    (if jsIndexOf cs c1 ≠ -1 ∧ jsLastIndexOf cs c2 > jsIndexOf cs c1 then
       jsonParse ⟨sliceL cs (jsIndexOf cs c1).toNat ((jsLastIndexOf cs c2).toNat + 1)⟩
     else none) =
    (match firstIdx? cs c1, lastIdx? cs c2 with
     | some i, some j => if i < j then jsonParse ⟨sliceL cs i (j + 1)⟩ else none
     | _, _ => none) := by
  unfold jsIndexOf jsLastIndexOf
  cases hf : firstIdx? cs c1 with
  | none => simp
  | some i =>
    cases hl : lastIdx? cs c2 with
    | none =>
      have : ¬ ((-1 : Int) > (i : Int)) := by omega
      simp [this]
    | some j =>
      by_cases hij : i < j
      · have hg : ((i : Int) ≠ -1 ∧ (j : Int) > (i : Int)) := by constructor <;> omega
        simp [hg, hij, Int.toNat_ofNat]
      · have hg : ¬ ((i : Int) ≠ -1 ∧ (j : Int) > (i : Int)) := by
          intro h
          exact hij (by exact_mod_cast h.2)
        simp [hg, hij]

/-- The salvage order refinement: the source's `tryParseJSON` equals the
specification's sanitize-then-four-ordered-stages pipeline, for every
input. -/
theorem tryParse_stage_equiv (raw : String) : tryParseJSON raw = salvageSpec raw := by
  unfold tryParseJSON salvageSpec stageDirect stageObjectSlice stageArraySlice stageItemsWrap
  dsimp only
  cases h1 : jsonParse (sanitizeJsonString raw) with
  | some v => simp [Option.orElse]
  | none =>
    simp only [Option.orElse]
    rw [sliceAttempt_equiv (sanitizeJsonString raw).data lbrace rbrace]
    cases h2 : (match firstIdx? (sanitizeJsonString raw).data lbrace,
        lastIdx? (sanitizeJsonString raw).data rbrace with
      | some i, some j =>
        if i < j then jsonParse ⟨sliceL (sanitizeJsonString raw).data i (j + 1)⟩ else none
      | _, _ => none) with
    | some v => rfl
    | none =>
      rw [sliceAttempt_equiv (sanitizeJsonString raw).data '[' ']']
      cases h3 : (match firstIdx? (sanitizeJsonString raw).data '[',
          lastIdx? (sanitizeJsonString raw).data ']' with
        | some i, some j =>
          if i < j then jsonParse ⟨sliceL (sanitizeJsonString raw).data i (j + 1)⟩ else none
        | _, _ => none) with
      | some v => rfl
      | none =>
        cases h4 : extractLikelyItemsArray (sanitizeJsonString raw).data with
        | some a => cases jsonParse ⟨a⟩ <;> rfl
        | none => rfl

/-- C3: the salvage pipeline sanitizes once and then attempts exactly the
four parse stages in the fixed order direct, object slice, array slice,
bracket-aware items wrap, short-circuiting on the first success. -/
theorem salvage_four_stage_order (raw : String) : tryParseJSON raw = salvageSpec raw :=
  tryParse_stage_equiv raw

/-- C4 counterexample: when all salvage stages fail, the claim requires a
Fail value carrying the sanitized text, the stage list and the final stage
name; the source's `tryParseJSON` returns a bare undefined, and the route
answers with a fixed message plus the first 2000 characters of the raw
(pre-sanitization) text — here `"json: x"`, not the sanitized `"x"`, and
no stage names anywhere. -/
theorem salvage_failure_payload_cex :
    tryParseJSON "json: x" = none ∧
    postHandleModelOutput "json: x" =
      PostOutcome.failPayload "Model returned non-JSON." "json: x" ∧
    sanitizeJsonString "json: x" = "x" ∧
    ("json: x" : String) ≠ "x" := by
  refine ⟨by rfl, by rfl, by decide, by decide⟩

/-- C4 amended: when all four salvage stages fail on an input, the salvage
function returns undefined (a bare failure, carrying nothing), and the
POST handler's error payload holds exactly the fixed error message and the
first 2000 characters of the raw response — not the sanitized text, not
the stage list, not a final stage name. -/
theorem salvage_failure_payload_amended (raw : String)
    (h1 : stageDirect (sanitizeJsonString raw) = none)
    (h2 : stageObjectSlice (sanitizeJsonString raw) = none)
    (h3 : stageArraySlice (sanitizeJsonString raw) = none)
    (h4 : stageItemsWrap (sanitizeJsonString raw) = none) :
    tryParseJSON raw = none ∧
    postHandleModelOutput raw =
      PostOutcome.failPayload "Model returned non-JSON." (jsTake raw 2000) := by
  have ht : tryParseJSON raw = none := by
    rw [tryParse_stage_equiv]
    unfold salvageSpec
    dsimp only
    rw [h1, h2, h3, h4]
    rfl
  refine ⟨ht, ?_⟩
  unfold postHandleModelOutput
  rw [ht]

/-- C4 amended, witness: all four stages fail on the unparseable input
`"x"`, and the theorem applies there. -/
theorem salvage_failure_payload_amended_witness :
    tryParseJSON "x" = none ∧
    postHandleModelOutput "x" =
      PostOutcome.failPayload "Model returned non-JSON." (jsTake "x" 2000) :=
  salvage_failure_payload_amended "x" (by rfl) (by rfl) (by rfl) (by rfl)

/-- The stateful seen-set filter over rows equals keep-first-per-key
deduplication restricted to rows whose key is not already seen. -/
theorem dedupGo_eq_firstOccurrences (l : List PriceRow) :
    ∀ (seen : List String),
      dedupGo seen l =
        firstOccurrences (l.filter (fun r => !(List.contains seen (dedupKey r)))) := by
  induction l with
  | nil => intro seen; simp [dedupGo, firstOccurrences]
  | cons r rs ih =>
    intro seen
    by_cases hs : dedupKey r ∈ seen
    · have hc : List.contains seen (dedupKey r) = true := List.elem_eq_true_of_mem hs
      rw [dedupGo, if_pos hc, ih seen]
      congr 1
      simp [List.filter_cons, hs]
    · have hc : ¬ (List.contains seen (dedupKey r) = true) := by
        intro h
        exact hs (List.mem_of_elem_eq_true h)
      rw [dedupGo, if_neg hc, ih (dedupKey r :: seen)]
      have hkeep : (r :: rs).filter (fun x => !(List.contains seen (dedupKey x))) =
          r :: rs.filter (fun x => !(List.contains seen (dedupKey x))) := by
        simp [List.filter_cons, hs]
      rw [hkeep, firstOccurrences]
      congr 1
      rw [List.filter_filter]
      congr 1
      apply List.filter_congr
      intro x _
      by_cases he : dedupKey x = dedupKey r
      · simp [he, List.contains, List.elem_cons]
      · simp [he, List.contains, List.elem_cons]

/-- C2: the rows returned by the extraction core are exactly the rows
synthesized in price-token encounter order (`rawRows`) deduplicated by the
composite key — for each key the first row is kept, every later row with
the same key is dropped, and the survivors keep their original order. -/
theorem extract_dedup_first_per_key (text : String) (meta : Meta) :
    extractCore text meta = firstOccurrences (rawRows text meta) := by
  unfold extractCore
  rw [dedupGo_eq_firstOccurrences]
  congr 1
  apply List.filter_eq_self.mpr
  intro r _
  rfl

/-- Lines without surviving price tokens add no rows to the scan state. -/
theorem foldl_stepLine_rows (m : Meta) (c : Currency) :
    ∀ (lines : List (List Char)) (st : ScanSt),
      (∀ l ∈ lines, (priceTokens l).filter isLikelyPrice = []) →
      (lines.foldl (stepLine m c) st).rows = st.rows := by
  intro lines
  induction lines with
  | nil => intro st _; rfl
  | cons l ls ih =>
    intro st h
    rw [List.foldl_cons]
    have hl : (priceTokens l).filter isLikelyPrice = [] := h l (by simp)
    have hstep : (stepLine m c st l).rows = st.rows := by
      unfold stepLine
      dsimp only
      rw [hl]
      simp [pushContext]
    rw [ih _ (fun x hx => h x (by simp [hx]))]
    exact hstep

/-- C5 amended: `extractFromPdf` raises exactly on a zero-length
`Uint8Array` or `ArrayBuffer` input — a zero-length Node `Buffer` is passed
through unchecked — and for text with zero recognizable price tokens the
extraction core returns the empty row list rather than raising. -/
theorem extract_error_iff_amended :
    (∀ (input : PdfInput) (text : String) (meta : Meta),
        (∃ e, extractFromPdf input text meta = Except.error e) ↔
          (input = PdfInput.uint8Array 0 ∨ input = PdfInput.arrayBuffer 0)) ∧
    (∀ (text : String) (meta : Meta), noPriceTokens text → extractCore text meta = []) := by
  constructor
  · intro input text meta
    cases input with
    | nodeBuffer n => simp [extractFromPdf, toBuffer]
    | uint8Array n =>
      by_cases hn : n = 0
      · subst hn; simp [extractFromPdf, toBuffer]
      · simp [extractFromPdf, toBuffer, hn]
    | arrayBuffer n =>
      by_cases hn : n = 0
      · subst hn; simp [extractFromPdf, toBuffer]
      · simp [extractFromPdf, toBuffer, hn]
  · intro text meta h
    unfold extractCore rawRows
    rw [foldl_stepLine_rows _ _ _ _ h]
    rfl

/-- C5 amended, witness: on a concrete text with no price tokens the core
returns the empty list, by the theorem. -/
theorem extract_error_iff_amended_witness :
    extractCore "hello world" emptyMeta = [] :=
  extract_error_iff_amended.2 "hello world" emptyMeta (by unfold noPriceTokens; decide)

/-- Pointwise character facts about decimal digits, by evaluation. -/
theorem digitChars_facts :
    ∀ x ∈ digitChars, moneyKeep x = true ∧ isJsWsC x = false ∧
      x ≠ ',' ∧ x ≠ '.' ∧ x ≠ '-' ∧ x.isDigit = true := by decide

/-- A predicate false on every element leaves `dropWhile` untouched. -/
theorem dropWhile_false {p : Char → Bool} :
    ∀ (l : List Char), (∀ x ∈ l, p x = false) → l.dropWhile p = l
  | [], _ => rfl
  | c :: cs, h => by
    have hc := h c (by simp)
    simp [List.dropWhile, hc]

/-- Trim is the identity on whitespace-free lists. -/
theorem jsTrimL_eq_self (l : List Char) (h : ∀ x ∈ l, isJsWsC x = false) :
    jsTrimL l = l := by
  unfold jsTrimL
  rw [dropWhile_false l h,
    dropWhile_false l.reverse (fun x hx => h x (List.mem_reverse.mp hx)),
    List.reverse_reverse]

/-- Unfolding equation of `lastIdx?` on a cons cell. -/
theorem lastIdx?_cons (c : Char) (cs : List Char) (t : Char) :
    lastIdx? (c :: cs) t =
      match lastIdx? cs t with
      | some i => some (i + 1)
      | none => if c = t then some 0 else none := rfl

/-- A character absent from a list has no last index in it. -/
theorem lastIdx?_none_of_not_mem (t : Char) :
    ∀ (l : List Char), (∀ x ∈ l, x ≠ t) → lastIdx? l t = none := by
  intro l
  induction l with
  | nil => intro _; rfl
  | cons c cs ih =>
    intro h
    rw [lastIdx?_cons, ih (fun x hx => h x (by simp [hx]))]
    simp [h c (by simp)]

/-- Last-index over an append: an occurrence in the right part wins. -/
theorem lastIdx?_append (l1 l2 : List Char) (t : Char) :
    lastIdx? (l1 ++ l2) t =
      match lastIdx? l2 t with
      | some i => some (l1.length + i)
      | none => lastIdx? l1 t := by
  induction l1 with
  | nil =>
    cases h : lastIdx? l2 t with
    | none => simp [h, lastIdx?]
    | some i => simp [h]
  | cons c cs ih =>
    rw [List.cons_append, lastIdx?_cons, ih, lastIdx?_cons]
    cases h2 : lastIdx? l2 t with
    | none => cases hc : lastIdx? cs t with
      | none => rfl
      | some j => rfl
    | some i =>
      simp only [List.length_cons]
      congr 1
      omega

/-- `replaceFirstComma` walks over a comma-free prefix. -/
theorem replaceFirstComma_append (l1 l2 : List Char) (h : ∀ x ∈ l1, x ≠ ',') :
    replaceFirstComma (l1 ++ l2) = l1 ++ replaceFirstComma l2 := by
  induction l1 with
  | nil => rfl
  | cons c cs ih =>
    rw [List.cons_append, replaceFirstComma, if_neg (h c (by simp)), ih (fun x hx => h x (by simp [hx]))]
    rfl

/-- `replaceFirstComma` is the identity on comma-free lists. -/
theorem replaceFirstComma_eq_self (l : List Char) (h : ∀ x ∈ l, x ≠ ',') :
    replaceFirstComma l = l := by
  induction l with
  | nil => rfl
  | cons c cs ih =>
    rw [replaceFirstComma, if_neg (h c (by simp)), ih (fun x hx => h x (by simp [hx]))]

/-- Evaluation of `parseMoneyL` on a dot-then-comma digit format: the dots
are stripped as thousands separators and the final comma becomes the
decimal point. -/
theorem parseMoneyL_dot_comma (a b c : List Char)
    (ha : ∀ x ∈ a, x ∈ digitChars) (hb : ∀ x ∈ b, x ∈ digitChars)
    (hc : ∀ x ∈ c, x ∈ digitChars) :
    parseMoneyL (a ++ '.' :: b ++ ',' :: c) =
      (match jsNum (a ++ (b ++ '.' :: c)) with
       | none => 0
       | some n => round2 n) := by
  have hmem : ∀ x ∈ a ++ '.' :: b ++ ',' :: c, moneyKeep x = true ∧ isJsWsC x = false := by
    intro x hx
    rcases List.mem_append.mp hx with hx | hx
    · rcases List.mem_append.mp hx with hx | hx
      · exact ⟨(digitChars_facts x (ha x hx)).1, (digitChars_facts x (ha x hx)).2.1⟩
      · rcases List.mem_cons.mp hx with rfl | hx
        · exact ⟨by decide, by decide⟩
        · exact ⟨(digitChars_facts x (hb x hx)).1, (digitChars_facts x (hb x hx)).2.1⟩
    · rcases List.mem_cons.mp hx with rfl | hx
      · exact ⟨by decide, by decide⟩
      · exact ⟨(digitChars_facts x (hc x hx)).1, (digitChars_facts x (hc x hx)).2.1⟩
  have hfilter : (a ++ '.' :: b ++ ',' :: c).filter moneyKeep = a ++ '.' :: b ++ ',' :: c :=
    List.filter_eq_self.mpr (fun x hx => (hmem x hx).1)
  have htrim : jsTrimL (a ++ '.' :: b ++ ',' :: c) = a ++ '.' :: b ++ ',' :: c :=
    jsTrimL_eq_self _ (fun x hx => (hmem x hx).2)
  have hne : ¬ (a ++ '.' :: b ++ ',' :: c = []) := by simp
  have hneg : ¬ ((a ++ '.' :: b ++ ',' :: c).head? = some '-') := by
    cases a with
    | nil => simp
    | cons a0 as =>
      intro hcon
      have h1 : a0 = '-' := by simpa using hcon
      exact (digitChars_facts a0 (ha a0 (by simp))).2.2.2.2.1 h1
  have hcset : (a ++ '.' :: b ++ ',' :: c).contains ',' = true ∧
      (a ++ '.' :: b ++ ',' :: c).contains '.' = true := by
    constructor <;> (apply List.elem_eq_true_of_mem; simp)
  have hca : lastIdx? a ',' = none :=
    lastIdx?_none_of_not_mem ',' a (fun x hx => (digitChars_facts x (ha x hx)).2.2.1)
  have hcb : lastIdx? b ',' = none :=
    lastIdx?_none_of_not_mem ',' b (fun x hx => (digitChars_facts x (hb x hx)).2.2.1)
  have hcc : lastIdx? c ',' = none :=
    lastIdx?_none_of_not_mem ',' c (fun x hx => (digitChars_facts x (hc x hx)).2.2.1)
  have hda : lastIdx? a '.' = none :=
    lastIdx?_none_of_not_mem '.' a (fun x hx => (digitChars_facts x (ha x hx)).2.2.2.1)
  have hdb : lastIdx? b '.' = none :=
    lastIdx?_none_of_not_mem '.' b (fun x hx => (digitChars_facts x (hb x hx)).2.2.2.1)
  have hdc : lastIdx? c '.' = none :=
    lastIdx?_none_of_not_mem '.' c (fun x hx => (digitChars_facts x (hc x hx)).2.2.2.1)
  have hcmp : jsLastIndexOf (a ++ '.' :: b ++ ',' :: c) ',' >
      jsLastIndexOf (a ++ '.' :: b ++ ',' :: c) '.' := by
    unfold jsLastIndexOf
    simp only [lastIdx?_append, lastIdx?_cons, hca, hcb, hcc, hda, hdb, hdc]
    simp
  have hfd : (a ++ '.' :: b ++ ',' :: c).filter (· ≠ '.') = a ++ (b ++ ',' :: c) := by
    have fa : List.filter (fun x => !decide (x = '.')) a = a :=
      List.filter_eq_self.mpr (fun x hx => by simp [(digitChars_facts x (ha x hx)).2.2.2.1])
    have fb : List.filter (fun x => !decide (x = '.')) b = b :=
      List.filter_eq_self.mpr (fun x hx => by simp [(digitChars_facts x (hb x hx)).2.2.2.1])
    have fc : List.filter (fun x => !decide (x = '.')) c = c :=
      List.filter_eq_self.mpr (fun x hx => by simp [(digitChars_facts x (hc x hx)).2.2.2.1])
    simp [List.filter_append, List.filter_cons, fa, fb, fc]
  have hrep : replaceFirstComma (a ++ (b ++ ',' :: c)) = a ++ (b ++ '.' :: c) := by
    rw [replaceFirstComma_append a _ (fun x hx => (digitChars_facts x (ha x hx)).2.2.1),
      replaceFirstComma_append b _ (fun x hx => (digitChars_facts x (hb x hx)).2.2.1),
      replaceFirstComma, if_pos rfl]
  unfold parseMoneyL
  dsimp only
  rw [hfilter, htrim, if_neg hne]
  simp only [if_neg hneg]
  rw [if_pos hcset, if_pos hcmp, hfd, hrep]

/-- Evaluation of `parseMoneyL` on a comma-then-dot digit format: the
commas are stripped as thousands separators and the final dot stays the
decimal point; the normalized digit string is the same as in the
dot-then-comma format. -/
theorem parseMoneyL_comma_dot (a b c : List Char)
    (ha : ∀ x ∈ a, x ∈ digitChars) (hb : ∀ x ∈ b, x ∈ digitChars)
    (hc : ∀ x ∈ c, x ∈ digitChars) :
    parseMoneyL (a ++ ',' :: b ++ '.' :: c) =
      (match jsNum (a ++ (b ++ '.' :: c)) with
       | none => 0
       | some n => round2 n) := by
  have hmem : ∀ x ∈ a ++ ',' :: b ++ '.' :: c, moneyKeep x = true ∧ isJsWsC x = false := by
    intro x hx
    rcases List.mem_append.mp hx with hx | hx
    · rcases List.mem_append.mp hx with hx | hx
      · exact ⟨(digitChars_facts x (ha x hx)).1, (digitChars_facts x (ha x hx)).2.1⟩
      · rcases List.mem_cons.mp hx with rfl | hx
        · exact ⟨by decide, by decide⟩
        · exact ⟨(digitChars_facts x (hb x hx)).1, (digitChars_facts x (hb x hx)).2.1⟩
    · rcases List.mem_cons.mp hx with rfl | hx
      · exact ⟨by decide, by decide⟩
      · exact ⟨(digitChars_facts x (hc x hx)).1, (digitChars_facts x (hc x hx)).2.1⟩
  have hfilter : (a ++ ',' :: b ++ '.' :: c).filter moneyKeep = a ++ ',' :: b ++ '.' :: c :=
    List.filter_eq_self.mpr (fun x hx => (hmem x hx).1)
  have htrim : jsTrimL (a ++ ',' :: b ++ '.' :: c) = a ++ ',' :: b ++ '.' :: c :=
    jsTrimL_eq_self _ (fun x hx => (hmem x hx).2)
  have hne : ¬ (a ++ ',' :: b ++ '.' :: c = []) := by simp
  have hneg : ¬ ((a ++ ',' :: b ++ '.' :: c).head? = some '-') := by
    cases a with
    | nil => simp
    | cons a0 as =>
      intro hcon
      have h1 : a0 = '-' := by simpa using hcon
      exact (digitChars_facts a0 (ha a0 (by simp))).2.2.2.2.1 h1
  have hcset : (a ++ ',' :: b ++ '.' :: c).contains ',' = true ∧
      (a ++ ',' :: b ++ '.' :: c).contains '.' = true := by
    constructor <;> (apply List.elem_eq_true_of_mem; simp)
  have hca : lastIdx? a ',' = none :=
    lastIdx?_none_of_not_mem ',' a (fun x hx => (digitChars_facts x (ha x hx)).2.2.1)
  have hcb : lastIdx? b ',' = none :=
    lastIdx?_none_of_not_mem ',' b (fun x hx => (digitChars_facts x (hb x hx)).2.2.1)
  have hcc : lastIdx? c ',' = none :=
    lastIdx?_none_of_not_mem ',' c (fun x hx => (digitChars_facts x (hc x hx)).2.2.1)
  have hda : lastIdx? a '.' = none :=
    lastIdx?_none_of_not_mem '.' a (fun x hx => (digitChars_facts x (ha x hx)).2.2.2.1)
  have hdb : lastIdx? b '.' = none :=
    lastIdx?_none_of_not_mem '.' b (fun x hx => (digitChars_facts x (hb x hx)).2.2.2.1)
  have hdc : lastIdx? c '.' = none :=
    lastIdx?_none_of_not_mem '.' c (fun x hx => (digitChars_facts x (hc x hx)).2.2.2.1)
  have hcmp : ¬ (jsLastIndexOf (a ++ ',' :: b ++ '.' :: c) ',' >
      jsLastIndexOf (a ++ ',' :: b ++ '.' :: c) '.') := by
    unfold jsLastIndexOf
    simp only [lastIdx?_append, lastIdx?_cons, hca, hcb, hcc, hda, hdb, hdc]
    simp
    omega
  have hfd : (a ++ ',' :: b ++ '.' :: c).filter (· ≠ ',') = a ++ (b ++ '.' :: c) := by
    have fa : List.filter (fun x => !decide (x = ',')) a = a :=
      List.filter_eq_self.mpr (fun x hx => by simp [(digitChars_facts x (ha x hx)).2.2.1])
    have fb : List.filter (fun x => !decide (x = ',')) b = b :=
      List.filter_eq_self.mpr (fun x hx => by simp [(digitChars_facts x (hb x hx)).2.2.1])
    have fc : List.filter (fun x => !decide (x = ',')) c = c :=
      List.filter_eq_self.mpr (fun x hx => by simp [(digitChars_facts x (hc x hx)).2.2.1])
    simp [List.filter_append, List.filter_cons, fa, fb, fc]
  have hrep : replaceFirstComma (a ++ (b ++ '.' :: c)) = a ++ (b ++ '.' :: c) := by
    apply replaceFirstComma_eq_self
    intro x hx
    rcases List.mem_append.mp hx with hx | hx
    · exact (digitChars_facts x (ha x hx)).2.2.1
    · rcases List.mem_append.mp hx with hx | hx
      · exact (digitChars_facts x (hb x hx)).2.2.1
      · rcases List.mem_cons.mp hx with rfl | hx
        · decide
        · exact (digitChars_facts x (hc x hx)).2.2.1
  unfold parseMoneyL
  dsimp only
  rw [hfilter, htrim, if_neg hne]
  simp only [if_neg hneg]
  rw [if_pos hcset, if_neg hcmp, hfd, hrep]

/-- Membership through `replaceFirstComma`: every output character was in
the input or is the introduced dot. -/
theorem mem_replaceFirstComma :
    ∀ (l : List Char) (x : Char), x ∈ replaceFirstComma l → x ∈ l ∨ x = '.' := by
  intro l
  induction l with
  | nil => intro x hx; exact absurd hx (by simp [replaceFirstComma])
  | cons c cs ih =>
    intro x hx
    rw [replaceFirstComma] at hx
    by_cases hcm : c = ','
    · rw [if_pos hcm] at hx
      rcases List.mem_cons.mp hx with rfl | hx
      · exact Or.inr rfl
      · exact Or.inl (by simp [hx])
    · rw [if_neg hcm] at hx
      rcases List.mem_cons.mp hx with rfl | hx
      · exact Or.inl (by simp)
      · rcases ih x hx with h | h
        · exact Or.inl (by simp [h])
        · exact Or.inr h

/-- A predicate false on every element makes `takeWhile` empty. -/
theorem takeWhile_false {p : Char → Bool} :
    ∀ (l : List Char), (∀ x ∈ l, p x = false) → l.takeWhile p = []
  | [], _ => rfl
  | c :: cs, h => by
    have hc := h c (by simp)
    simp [List.takeWhile_cons, hc]

/-- JS `Number()` on a nonempty string with no digit characters is NaN. -/
theorem jsNum_none_of_no_digit (c0 : Char) (cs : List Char)
    (h : ∀ x ∈ c0 :: cs, x.isDigit = false) : jsNum (c0 :: cs) = none := by
  unfold jsNum
  dsimp only
  by_cases hm : (c0 :: cs).head? = some '-'
  · rw [if_pos hm]
    dsimp only [List.tail_cons]
    have hcs : ∀ x ∈ cs, x.isDigit = false := fun x hx => h x (by simp [hx])
    rw [takeWhile_false cs hcs, dropWhile_false cs hcs]
    cases cs with
    | nil => rfl
    | cons r rr =>
      have hrr : ∀ x ∈ rr, x.isDigit = false := fun x hx => hcs x (by simp [hx])
      by_cases hdot : r = '.'
      · subst hdot
        cases rr with
        | nil => simp
        | cons z zs =>
          have hz : z.isDigit = false := hrr z (by simp)
          simp [List.all_cons, hz]
      · split
        · rfl
        · rename_i r2x fp heq
          injection heq with h1 h2
          exact absurd h1 hdot
        · rfl
  · rw [if_neg hm]
    rw [takeWhile_false (c0 :: cs) h, dropWhile_false (c0 :: cs) h]
    have hcs : ∀ x ∈ cs, x.isDigit = false := fun x hx => h x (by simp [hx])
    by_cases hdot : c0 = '.'
    · subst hdot
      cases cs with
      | nil => simp
      | cons z zs =>
        have hz : z.isDigit = false := hcs z (by simp)
        simp [List.all_cons, hz]
    · split
      · rfl
      · rename_i r2x fp heq
        injection heq with h1 h2
        exact absurd h1 hdot
      · rfl

/-- Trim only removes characters: membership is preserved downward. -/
theorem mem_of_mem_jsTrimL (l : List Char) (y : Char) (hy : y ∈ jsTrimL l) : y ∈ l := by
  unfold jsTrimL at hy
  rw [List.mem_reverse] at hy
  have hy2 := (List.dropWhile_sublist isJsWsC).subset hy
  rw [List.mem_reverse] at hy2
  exact (List.dropWhile_sublist isJsWsC).subset hy2

/-- The rounded result is always an integer number of hundredths. -/
theorem round2_div100 (v : ℚ) : ∃ k : ℤ, round2 v = (k : ℚ) / 100 :=
  ⟨jsRound (Rat.divInt (v.num * 100) (v.den : Int)), by
    unfold round2
    rw [Rat.divInt_eq_div]
    norm_num⟩


/-- `parseMoney` of a digit-free string is 0: the stripped text either
dies in the explicit empty check, survives as the empty string that JS
coerces to 0 (rounded to 0), or fails numeric conversion entirely. -/
theorem parseMoneyL_no_digit (l : List Char) (h : ∀ x ∈ l, x.isDigit = false) :
    parseMoneyL l = 0 := by
  have hX : ∀ y ∈ jsTrimL (List.filter moneyKeep l), y.isDigit = false :=
    fun y hy => h y (List.mem_of_mem_filter (mem_of_mem_jsTrimL _ y hy))
  unfold parseMoneyL
  dsimp only
  by_cases h0 : jsTrimL (List.filter moneyKeep l) = []
  · rw [if_pos h0]
  · rw [if_neg h0]
    have hX2 : ∀ y ∈ (if ((if (jsTrimL (List.filter moneyKeep l)).head? = some '-' then
          (jsTrimL (List.filter moneyKeep l)).tail else
          jsTrimL (List.filter moneyKeep l)).contains ',' ∧
          ((if (jsTrimL (List.filter moneyKeep l)).head? = some '-' then
          (jsTrimL (List.filter moneyKeep l)).tail else
          jsTrimL (List.filter moneyKeep l)).contains '.')) then
        (if jsLastIndexOf (if (jsTrimL (List.filter moneyKeep l)).head? = some '-' then
              (jsTrimL (List.filter moneyKeep l)).tail else
              jsTrimL (List.filter moneyKeep l)) ',' >
            jsLastIndexOf (if (jsTrimL (List.filter moneyKeep l)).head? = some '-' then
              (jsTrimL (List.filter moneyKeep l)).tail else
              jsTrimL (List.filter moneyKeep l)) '.' then
          (if (jsTrimL (List.filter moneyKeep l)).head? = some '-' then
            (jsTrimL (List.filter moneyKeep l)).tail else
            jsTrimL (List.filter moneyKeep l)).filter (· ≠ '.')
        else
          (if (jsTrimL (List.filter moneyKeep l)).head? = some '-' then
            (jsTrimL (List.filter moneyKeep l)).tail else
            jsTrimL (List.filter moneyKeep l)).filter (· ≠ ','))
      else
        (if (jsTrimL (List.filter moneyKeep l)).head? = some '-' then
          (jsTrimL (List.filter moneyKeep l)).tail else
          jsTrimL (List.filter moneyKeep l))), y.isDigit = false := by
      intro y hy
      repeat'
        first
        | exact hX y (List.mem_of_mem_tail (List.mem_of_mem_filter hy))
        | exact hX y (List.mem_of_mem_filter hy)
        | exact hX y (List.mem_of_mem_tail hy)
        | exact hX y hy
        | split at hy
    cases h3 : replaceFirstComma (if ((if (jsTrimL (List.filter moneyKeep l)).head? = some '-' then
          (jsTrimL (List.filter moneyKeep l)).tail else
          jsTrimL (List.filter moneyKeep l)).contains ',' ∧
          ((if (jsTrimL (List.filter moneyKeep l)).head? = some '-' then
          (jsTrimL (List.filter moneyKeep l)).tail else
          jsTrimL (List.filter moneyKeep l)).contains '.')) then
        (if jsLastIndexOf (if (jsTrimL (List.filter moneyKeep l)).head? = some '-' then
              (jsTrimL (List.filter moneyKeep l)).tail else
              jsTrimL (List.filter moneyKeep l)) ',' >
            jsLastIndexOf (if (jsTrimL (List.filter moneyKeep l)).head? = some '-' then
              (jsTrimL (List.filter moneyKeep l)).tail else
              jsTrimL (List.filter moneyKeep l)) '.' then
          (if (jsTrimL (List.filter moneyKeep l)).head? = some '-' then
            (jsTrimL (List.filter moneyKeep l)).tail else
            jsTrimL (List.filter moneyKeep l)).filter (· ≠ '.')
        else
          (if (jsTrimL (List.filter moneyKeep l)).head? = some '-' then
            (jsTrimL (List.filter moneyKeep l)).tail else
            jsTrimL (List.filter moneyKeep l)).filter (· ≠ ','))
      else
        (if (jsTrimL (List.filter moneyKeep l)).head? = some '-' then
          (jsTrimL (List.filter moneyKeep l)).tail else
          jsTrimL (List.filter moneyKeep l))) with
    | nil =>
      have hj : jsNum [] = some (0 : ℚ) := rfl
      rw [hj]
      dsimp only
      have hneg0 : (-(0 : ℚ)) = 0 := by norm_num
      by_cases hh : (jsTrimL (List.filter moneyKeep l)).head? = some '-'
      · rw [if_pos hh, hneg0]
        decide
      · rw [if_neg hh]
        decide
    | cons z zs =>
      rw [jsNum_none_of_no_digit z zs]
      intro y hy
      rw [← h3] at hy
      rcases mem_replaceFirstComma _ y hy with hy2 | rfl
      · exact hX2 y hy2
      · decide

/-- Every `parseMoneyL` result is 0 or a rounded value. -/
theorem parseMoneyL_cases (l : List Char) :
    parseMoneyL l = 0 ∨ ∃ v, parseMoneyL l = round2 v := by
  unfold parseMoneyL
  dsimp only
  split
  · exact Or.inl rfl
  · split
    · exact Or.inl rfl
    · exact Or.inr ⟨_, rfl⟩

/-- C1: when a token contains both a comma and a dot, the later separator
becomes the decimal point and the other is stripped, so the two formats
4.377,00 and 4,377.00 (and, generally, any digit strings around the two
separators in either order) parse to the identical value; every result is
an integer number of hundredths (rounded to 2 decimal places); and empty
or digit-free input yields 0 rather than an error. -/
theorem parseMoney_separator_rounding_zero :
    (∀ (a b c : List Char),
        (∀ x ∈ a, x ∈ digitChars) → (∀ x ∈ b, x ∈ digitChars) →
        (∀ x ∈ c, x ∈ digitChars) →
        parseMoneyL (a ++ '.' :: b ++ ',' :: c) = parseMoneyL (a ++ ',' :: b ++ '.' :: c)) ∧
    parseMoney "4.377,00" = 4377 ∧
    parseMoney "4,377.00" = 4377 ∧
    (∀ s : String, ∃ k : ℤ, parseMoney s = (k : ℚ) / 100) ∧
    parseMoney "" = 0 ∧
    (∀ s : String, (∀ x ∈ s.data, x.isDigit = false) → parseMoney s = 0) := by
  refine ⟨?_, by decide, by decide, ?_, by decide, ?_⟩
  · intro a b c ha hb hc
    rw [parseMoneyL_dot_comma a b c ha hb hc, parseMoneyL_comma_dot a b c ha hb hc]
  · intro s
    rcases parseMoneyL_cases s.data with h | ⟨v, h⟩
    · exact ⟨0, by rw [parseMoney, h]; norm_num⟩
    · obtain ⟨k, hk⟩ := round2_div100 v
      exact ⟨k, by rw [parseMoney, h, hk]⟩
  · intro s h
    exact parseMoneyL_no_digit s.data h

/-- C1, witness: the format-symmetry conjunct applied to the concrete
digit segments of 4.377,00 versus 4,377.00, and the digit-free conjunct
applied to a concrete letter string. -/
theorem parseMoney_separator_rounding_zero_witness :
    parseMoneyL (['4'] ++ '.' :: ['3', '7', '7'] ++ ',' :: ['0', '0']) =
      parseMoneyL (['4'] ++ ',' :: ['3', '7', '7'] ++ '.' :: ['0', '0']) ∧
    parseMoney "abc" = 0 :=
  ⟨parseMoney_separator_rounding_zero.1 ['4'] ['3', '7', '7'] ['0', '0']
      (by decide) (by decide) (by decide),
    parseMoney_separator_rounding_zero.2.2.2.2.2 "abc" (by decide)⟩
